import Mathlib

/-!
Verification development for the chaostomato Pomodoro-bot session store.

The Rust sources under `src/state/` hold a `State` made of two structures:
an `entries` map from `CacheKey` (chat id + message id) to `(Session,
delay_queue::Key)` pairs, and an `expirations` delay queue of `CacheKey`s.
This file gives a shallow embedding of that state and of its operations
(`new_pomodoro`, `new_break`, `start_session_now`, `join_latest_session`,
`leave_latest_session`, `add_participant`, and the scheduler loop of
`periodic.rs`), and proves the specified consistency and transition
properties about them.

Modelling conventions:
* `Instant` and `Duration` are natural numbers (seconds).
* The `HashMap` is an association list with unique keys; the `DelayQueue`
  is a list of `(key, value, deadline)` triples together with a fresh-key
  counter (`tokio`'s queue hands out unique keys on insertion).
* `HashSet<User>` is a duplicate-free list; `insert` appends when absent.
* Calls into the Telegram API are external.  The only API result that
  flows back into the store is the freshly sent message that the notify
  helpers store into `session.message`; each operation that notifies takes
  an extra `notif : Option Message` argument standing for that result
  (`none` = the send failed, the old message is kept).  Message deletions
  requested from the store are recorded as `Effect`s.
-/

namespace Chaostomato

/-- A Telegram user (the fields of `tbot::types::User` the store reads:
the numeric id, the optional username and the first name; equality of the
remaining fields is subsumed by `username`/`firstName` for the purposes of
`HashSet` membership, which compares whole values). -/
structure User where
  id : Nat
  username : Option String
  firstName : String
deriving DecidableEq, Repr

/-- The kind of a Telegram chat (`tbot::types::chat::Kind`); every kind
other than private/group/supergroup is collapsed into `Channel`, the
catch-all arm of the source's `match`es. -/
inductive ChatKind
  | Private
  | Group
  | Supergroup
  | Channel
deriving DecidableEq, Repr

/-- A chat: numeric id plus kind. -/
structure Chat where
  id : Int
  kind : ChatKind
deriving DecidableEq, Repr

/-- A Telegram message: the chat it lives in and its message id. -/
structure Message where
  chat : Chat
  id : Nat
deriving DecidableEq, Repr

/-- `SessionState` from `src/state/session_state.rs`. -/
inductive SessionState
  | PomodoroWaiting
  | PomodoroRunning
  | BreakWaiting
  | BreakRunning
deriving DecidableEq, Repr

/-- `Session` from `src/state/session.rs`. -/
structure Session where
  state : SessionState
  message : Message
  creator : User
  participants : List User
  creation_time : Nat
  start_time : Nat
  duration : Nat
deriving DecidableEq, Repr

/-- `CacheKey` from `src/state/mod.rs`. -/
structure CacheKey where
  chat_id : Int
  message_id : Nat
deriving DecidableEq, Repr

def CacheKey.new (chat_id : Int) (message_id : Nat) : CacheKey :=
  ⟨chat_id, message_id⟩

/-- One pending item of the delay queue: the `delay_queue::Key` handed out
at insertion, the stored value and the expiration instant. -/
structure QueueItem where
  qkey : Nat
  value : CacheKey
  deadline : Nat
deriving DecidableEq, Repr

/-- The `DelayQueue<CacheKey>`: pending items plus the next fresh key. -/
structure DelayQueue where
  items : List QueueItem
  next : Nat
deriving DecidableEq, Repr

/-- `DelayQueue::insert_at`: schedule a value at an absolute instant,
returning the fresh key. -/
def DelayQueue.insertAt (q : DelayQueue) (v : CacheKey) (deadline : Nat) :
    Nat × DelayQueue :=
  (q.next, ⟨q.items ++ [⟨q.next, v, deadline⟩], q.next + 1⟩)

/-- `DelayQueue::insert`: schedule a value after a delay from now. -/
def DelayQueue.insert (q : DelayQueue) (v : CacheKey) (dur now : Nat) :
    Nat × DelayQueue :=
  q.insertAt v (now + dur)

/-- `DelayQueue::remove`: drop the item with the given queue key. -/
def DelayQueue.removeKey (q : DelayQueue) (k : Nat) : DelayQueue :=
  ⟨q.items.filter (fun it => it.qkey != k), q.next⟩

/-- One entry of the `entries` map: key, session and the paired
`delay_queue::Key`. -/
structure Entry where
  key : CacheKey
  session : Session
  dkey : Nat
deriving DecidableEq, Repr

/-- `HashMap::get`: first (unique) entry with the given key. -/
def lookupE (es : List Entry) (k : CacheKey) : Option (Session × Nat) :=
  match es.find? (fun e => e.key == k) with
  | some e => some (e.session, e.dkey)
  | none => none

/-- `HashMap::contains_key`. -/
def containsE (es : List Entry) (k : CacheKey) : Bool :=
  es.any (fun e => e.key == k)

/-- `HashMap::insert`: replace the entry at the key, or append. -/
def insertE (es : List Entry) (k : CacheKey) (s : Session) (dk : Nat) :
    List Entry :=
  if containsE es k then
    es.map (fun e => if e.key == k then ⟨k, s, dk⟩ else e)
  else
    es ++ [⟨k, s, dk⟩]

/-- `HashMap::remove`: the removed value (if any) and the shrunk map. -/
def removeE (es : List Entry) (k : CacheKey) :
    Option (Session × Nat) × List Entry :=
  (lookupE es k, es.filter (fun e => e.key != k))

/-- `HashMap::get_mut` followed by an in-place update of the session. -/
def modifyE (es : List Entry) (k : CacheKey) (f : Session → Session) :
    List Entry :=
  es.map (fun e => if e.key == k then ⟨e.key, f e.session, e.dkey⟩ else e)

/-- `time::instant_at_minute`: "now" advanced to the next
`minute % 5 == 0` boundary; `utcMin` is the current UTC minute. -/
def instant_at_minute (now utcMin : Nat) : Nat :=
  now + 60 * (5 - utcMin % 5)

/-- `Session::is_waiting`. -/
def Session.is_waiting (s : Session) : Bool :=
  s.state == SessionState.PomodoroWaiting

/-- `Session::is_running`. -/
def Session.is_running (s : Session) : Bool :=
  s.state == SessionState.PomodoroRunning

/-- `Session::is_awaiting_break`. -/
def Session.is_awaiting_break (s : Session) : Bool :=
  s.state == SessionState.BreakWaiting

/-- `Session::is_taking_a_break`. -/
def Session.is_taking_a_break (s : Session) : Bool :=
  s.state == SessionState.BreakRunning

/-- `Session::convert_to_break`. -/
def Session.convert_to_break (s : Session) : Session :=
  { s with duration := 60 * 5, state := SessionState.BreakRunning }

/-- `Session::notify_participants_on_start`: deletes the anchor and sends
a fresh "Session has started!" message; on success the session stores the
fresh message, on failure it keeps the old one.  `notif` is the API
result. -/
def Session.notify_participants_on_start (s : Session) (notif : Option Message) :
    Session :=
  match notif with
  | some m => { s with message := m }
  | none => s

/-- `Session::notify_participants_on_end`: sends the "Session is over"
message and stores it into the session on success. -/
def Session.notify_participants_on_end (s : Session) (notif : Option Message) :
    Session :=
  match notif with
  | some m => { s with message := m }
  | none => s

/-- `Session::new_pomodoro`: 25-minute default duration; the default
start time is "now" in a private chat and the next five-minute boundary
in a group or supergroup; any other chat kind is rejected. -/
def Session.new_pomodoro (message : Message) (creator : User)
    (start_time duration : Option Nat) (now utcMin : Nat) :
    Except String Session :=
  let participants := [creator]
  let creation_time := now
  let dur := duration.getD (60 * 25)
  match message.chat.kind with
  | ChatKind.Private =>
      Except.ok ⟨SessionState.PomodoroWaiting, message, creator, participants,
        creation_time, start_time.getD now, dur⟩
  | ChatKind.Group =>
      Except.ok ⟨SessionState.PomodoroWaiting, message, creator, participants,
        creation_time, start_time.getD (instant_at_minute now utcMin), dur⟩
  | ChatKind.Supergroup =>
      Except.ok ⟨SessionState.PomodoroWaiting, message, creator, participants,
        creation_time, start_time.getD (instant_at_minute now utcMin), dur⟩
  | ChatKind.Channel =>
      Except.error "Chat kind is neither a group nor a supergroup nor a private chat"

/-- `Session::new_break`: 5-minute default duration, default start time
equal to the creation time, no chat-kind restriction. -/
def Session.new_break (message : Message) (creator : User)
    (start_time duration : Option Nat) (now : Nat) : Except String Session :=
  Except.ok ⟨SessionState.BreakWaiting, message, creator, [creator],
    now, start_time.getD now, duration.getD (60 * 5)⟩

/-- An externally visible call the store makes against the chat API. -/
inductive Effect
  | deleteMessage (chat_id : Int) (message_id : Nat)
deriving DecidableEq, Repr

/-- The bot's `State`: expiration queue plus entries map. -/
structure StoreState where
  expirations : DelayQueue
  entries : List Entry
deriving DecidableEq, Repr

/-- `State::default()`. -/
def StoreState.initial : StoreState :=
  ⟨⟨[], 0⟩, []⟩

/-- `State::session_exists`. -/
def StoreState.session_exists (st : StoreState) (cache_key : CacheKey) :
    Except String Unit :=
  if containsE st.entries cache_key then
    Except.ok ()
  else
    Except.error ("A Pomodoro in chat " ++ toString cache_key.chat_id ++
      " with id " ++ toString cache_key.message_id ++ " does not exist!")

/-- `State::is_owner` (as a boolean: the source returns `Ok(())` exactly
when the entry is absent after the exists check or the creator's id
matches). -/
def StoreState.is_owner (st : StoreState) (cache_key : CacheKey) (user_id : Nat) :
    Bool :=
  containsE st.entries cache_key &&
    match lookupE st.entries cache_key with
    | some (pomodoro, _) => pomodoro.creator.id == user_id
    | none => true

/-- `State::add_session_to_queue`: insert into the queue at the session's
start time, then insert the (session, queue key) pair into the map. -/
def StoreState.add_session_to_queue (st : StoreState) (pomodoro : Session) :
    StoreState :=
  let cache_key := CacheKey.new pomodoro.message.chat.id pomodoro.message.id
  let r := st.expirations.insertAt cache_key pomodoro.start_time
  { expirations := r.2, entries := insertE st.entries cache_key pomodoro r.1 }

/-- `State::new_pomodoro`. -/
def StoreState.new_pomodoro (st : StoreState) (message : Message) (creator : User)
    (start_time duration : Option Nat) (now utcMin : Nat) :
    Except String Unit × StoreState :=
  let cache_key := CacheKey.new message.chat.id message.id
  match st.session_exists cache_key with
  | Except.ok _ =>
      (Except.error ("Message " ++ toString message.id ++ "  in chat " ++
        toString message.chat.id ++ " is already present in state"), st)
  | Except.error _ =>
      match Session.new_pomodoro message creator start_time duration now utcMin with
      | Except.error e => (Except.error e, st)
      | Except.ok pomodoro => (Except.ok (), st.add_session_to_queue pomodoro)

/-- `State::new_break`. -/
def StoreState.new_break (st : StoreState) (message : Message) (creator : User)
    (start_time duration : Option Nat) (now : Nat) :
    Except String Unit × StoreState :=
  let cache_key := CacheKey.new message.chat.id message.id
  match st.session_exists cache_key with
  | Except.ok _ =>
      (Except.error ("Message " ++ toString message.id ++ "  in chat " ++
        toString message.chat.id ++ " is already present in state"), st)
  | Except.error _ =>
      match Session.new_break message creator start_time duration now with
      | Except.error e => (Except.error e, st)
      | Except.ok pomodoro => (Except.ok (), st.add_session_to_queue pomodoro)

/-- `State::start_session_now`: exists check, ownership check (by user
id), then: remove the map entry, set the state to `PomodoroRunning`,
notify, drop the old queue item and re-insert under the *original* cache
key with a deadline of now + duration. -/
def StoreState.start_session_now (st : StoreState) (user : User)
    (message : Message) (now : Nat) (notif : Option Message) :
    Except String String × StoreState :=
  let cache_key := CacheKey.new message.chat.id message.id
  match st.session_exists cache_key with
  | Except.error e => (Except.error e, st)
  | Except.ok _ =>
    if st.is_owner cache_key user.id then
      match removeE st.entries cache_key with
      | (some (pomodoro, key), entries1) =>
          let pomodoro := { pomodoro with state := SessionState.PomodoroRunning }
          let pomodoro := pomodoro.notify_participants_on_start notif
          let q1 := st.expirations.removeKey key
          let r := q1.insert cache_key pomodoro.duration now
          (Except.ok "Let's go!",
            { expirations := r.2, entries := insertE entries1 cache_key pomodoro r.1 })
      | (none, _) => (Except.ok "Let's go!", st)
    else
      (Except.error "Only the creator is allowed to start the session", st)

/-- `State::start_session` (scheduler path): set the state to running and
register under the key of the session's *current* message with a deadline
of now + duration. -/
def StoreState.start_session (st : StoreState) (pomodoro : Session) (now : Nat) :
    StoreState :=
  let pomodoro := { pomodoro with state := SessionState.PomodoroRunning }
  let cache_key := CacheKey.new pomodoro.message.chat.id pomodoro.message.id
  let r := st.expirations.insert cache_key pomodoro.duration now
  { expirations := r.2, entries := insertE st.entries cache_key pomodoro r.1 }

/-- `State::start_break`: convert to a break and register under the key
of the session's current message with a deadline of now + duration. -/
def StoreState.start_break (st : StoreState) (pomodoro : Session) (now : Nat) :
    StoreState :=
  let pomodoro := pomodoro.convert_to_break
  let cache_key := CacheKey.new pomodoro.message.chat.id pomodoro.message.id
  let r := st.expirations.insert cache_key pomodoro.duration now
  { expirations := r.2, entries := insertE st.entries cache_key pomodoro r.1 }

/-- `State::sessions_in_chat`. -/
def StoreState.sessions_in_chat (st : StoreState) (chat : Chat) : List Session :=
  (st.entries.filter (fun e => e.session.message.chat.id == chat.id)).map
    (fun e => e.session)

/-- The ascending message-id order used by the source's `sort_by`. -/
def byMessageId (a b : Session) : Prop :=
  a.message.id ≤ b.message.id

instance : DecidableRel byMessageId :=
  fun a b => inferInstanceAs (Decidable (a.message.id ≤ b.message.id))

instance : IsTotal Session byMessageId :=
  ⟨fun a b => Nat.le_total a.message.id b.message.id⟩

instance : IsTrans Session byMessageId :=
  ⟨fun _ _ _ h1 h2 => Nat.le_trans h1 h2⟩

/-- `State::newest_session_in_chat`: sort the chat's sessions by message
id, keep the waiting ones, pop the last. -/
def StoreState.newest_session_in_chat (st : StoreState) (chat : Chat) :
    Option CacheKey :=
  let sessions := st.sessions_in_chat chat
  let sessions := sessions.insertionSort byMessageId
  let sessions := sessions.filter (fun s => s.is_waiting)
  match sessions.getLast? with
  | some session => some (CacheKey.new session.message.chat.id session.message.id)
  | none => none

/-- `State::join_latest_session`. -/
def StoreState.join_latest_session (st : StoreState) (chat : Chat) (user : User) :
    Except String Message × StoreState :=
  match st.newest_session_in_chat chat with
  | some cache_key =>
      match lookupE st.entries cache_key with
      | some (session, _) =>
          if session.participants.contains user then
            (Except.error ("@" ++ (user.username.getD user.firstName) ++
              " is already a participant"), st)
          else
            (Except.ok session.message,
              { st with entries := (modifyE st.entries cache_key
                  (fun s => { s with participants := s.participants ++ [user] })) })
      | none => (Except.error "Session not found in State", st)
  | none =>
      (Except.error ("This chat does not have any registered sessions yet.\n\n" ++
        "Hint: Use /25 to create a new session."), st)

/-- The per-session effect of `remove_participant`'s critical section:
drop every participant whose *id* matches the leaver's, and when the
leaver equals the creator (whole-value equality) either hand ownership to
an arbitrary remaining participant or flag the session as emptied. -/
def leaveSession (user : User) (s : Session) : Session × Bool :=
  let parts := s.participants.filter (fun uid => uid.id != user.id)
  if s.creator == user then
    match parts.head? with
    | some u => ({ s with participants := parts, creator := u }, false)
    | none => ({ s with participants := parts }, true)
  else
    ({ s with participants := parts }, false)

/-- `State::remove_session_from_queue`. -/
def StoreState.remove_session_from_queue (st : StoreState) (cache_key : CacheKey) :
    Except String Unit × StoreState :=
  match st.session_exists cache_key with
  | Except.error e => (Except.error e, st)
  | Except.ok _ =>
      match removeE st.entries cache_key with
      | (some sd, entries1) =>
          (Except.ok (),
            { expirations := st.expirations.removeKey sd.2, entries := entries1 })
      | (none, _) => (Except.error "Unexpected error", st)

/-- `State::remove_participant`: exists check, in-place removal via
`leaveSession`, and — when the participant set was emptied — deletion of
the anchor message together with `remove_session_from_queue`. -/
def StoreState.remove_participant (st : StoreState) (cache_key : CacheKey)
    (user : User) : Except String String × StoreState × List Effect :=
  match st.session_exists cache_key with
  | Except.error e => (Except.error e, st, [])
  | Except.ok _ =>
      match lookupE st.entries cache_key with
      | some (pomodoro, _) =>
          let emptied := (leaveSession user pomodoro).2
          let st1 : StoreState :=
            { st with entries := (modifyE st.entries cache_key
                (fun s => (leaveSession user s).1)) }
          let msg := "@" ++ (user.username.getD user.firstName) ++ " left the session."
          if emptied then
            (Except.ok msg, (st1.remove_session_from_queue cache_key).2,
              [Effect.deleteMessage cache_key.chat_id cache_key.message_id])
          else
            (Except.ok msg, st1, [])
      | none =>
          (Except.error ("Failed to delete user " ++ toString user.id ++ " (@" ++
            (user.username.getD user.firstName) ++ ")!"), st, [])

/-- `State::leave_latest_session`: scan the chat's sessions in descending
message-id order and remove the user from the first one they belong to. -/
def StoreState.leave_latest_session (st : StoreState) (chat : Chat) (user : User) :
    Except String String × StoreState × List Effect :=
  let sessions := st.sessions_in_chat chat
  let sessions := (sessions.insertionSort byMessageId).reverse
  match sessions.find? (fun s => s.participants.contains user) with
  | some entry =>
      st.remove_participant (CacheKey.new entry.message.chat.id entry.message.id) user
  | none => (Except.ok "You are not subscribed to any sessions.", st, [])

/-- `State::add_participant` (the inline "join" button): a missing
session is reported as a *successful* "Pomodoro not found!" reply. -/
def StoreState.add_participant (st : StoreState) (message : Message) (user : User) :
    Except String String × StoreState :=
  let cache_key := CacheKey.new message.chat.id message.id
  match st.session_exists cache_key with
  | Except.error _ => (Except.ok "Pomodoro not found!", st)
  | Except.ok _ =>
      match lookupE st.entries cache_key with
      | some (pomodoro, _) =>
          if pomodoro.participants.contains user then
            (Except.ok "You are already subscribed!", st)
          else
            (Except.ok "Yay!",
              { st with entries := (modifyE st.entries cache_key
                  (fun s => { s with participants := s.participants ++ [user] })) })
      | none => (Except.ok "Yay!", st)

/-- The state-machine dispatch `poll_for_expired_entries` performs on a
popped session: the re-registered session, or `none` when the session is
dropped (end of a break, or a waiting session in an unsupported chat
kind). -/
def tickTransition (session : Session) (notif : Option Message) : Option Session :=
  if session.is_waiting then
    match session.message.chat.kind with
    | ChatKind.Group =>
        some { session.notify_participants_on_start notif with
          state := SessionState.PomodoroRunning }
    | ChatKind.Supergroup =>
        some { session.notify_participants_on_start notif with
          state := SessionState.PomodoroRunning }
    | ChatKind.Private => some { session with state := SessionState.PomodoroRunning }
    | ChatKind.Channel => none
  else if session.is_running then
    some ((session.notify_participants_on_end notif).convert_to_break)
  else if session.is_awaiting_break then
    some session.convert_to_break
  else
    none

/-- One iteration of `periodic::poll_for_expired_entries` in which the
queue item with key `qk` expires: pop it from the queue, remove the
paired map entry, and dispatch on the session's state exactly as the
source does (`start_pomodoro` / `end_pomodoro` / `start_break` /
`end_break`). -/
def StoreState.tick (st : StoreState) (qk now : Nat) (notif : Option Message) :
    StoreState :=
  match st.expirations.items.find? (fun it => it.qkey == qk) with
  | none => st
  | some it =>
    let st1 : StoreState := { st with expirations := st.expirations.removeKey qk }
    match removeE st1.entries it.value with
    | (none, _) => st1
    | (some (session, _), entries1) =>
      let st2 : StoreState := { st1 with entries := entries1 }
      if session.is_waiting then
        match session.message.chat.kind with
        | ChatKind.Group =>
            st2.start_session (session.notify_participants_on_start notif) now
        | ChatKind.Supergroup =>
            st2.start_session (session.notify_participants_on_start notif) now
        | ChatKind.Private => st2.start_session session now
        | ChatKind.Channel => st2
      else if session.is_running then
        st2.start_break (session.notify_participants_on_end notif) now
      else if session.is_awaiting_break then
        st2.start_break session now
      else
        st2

/-- A mutating store operation, with every external input it consumes
(the `notif` arguments are the chat API's replies to the notification
sends, see the module comment). -/
inductive Op
  | newPomodoro (message : Message) (creator : User)
      (start_time duration : Option Nat) (utcMin : Nat)
  | newBreak (message : Message) (creator : User) (start_time duration : Option Nat)
  | startNow (user : User) (message : Message) (notif : Option Message)
  | join (chat : Chat) (user : User)
  | leave (chat : Chat) (user : User)
  | addPart (message : Message) (user : User)
  | tick (qk : Nat) (notif : Option Message)

/-- The state reached after running one operation at instant `now`. -/
def StoreState.apply (st : StoreState) (now : Nat) : Op → StoreState
  | Op.newPomodoro m c t d um => (st.new_pomodoro m c t d now um).2
  | Op.newBreak m c t d => (st.new_break m c t d now).2
  | Op.startNow u m notif => (st.start_session_now u m now notif).2
  | Op.join c u => (st.join_latest_session c u).2
  | Op.leave c u => (st.leave_latest_session c u).2.1
  | Op.addPart m u => (st.add_participant m u).2
  | Op.tick qk notif => st.tick qk now notif

/-- The key under which a session is (re-)registered: the key of its
current anchor message. -/
def msgKey (s : Session) : CacheKey :=
  CacheKey.new s.message.chat.id s.message.id

/-- Freshness of the chat API's replies: a freshly sent Telegram message
has a message id never used before in its chat, so the key a scheduler
transition re-registers a session under collides with no other map entry.
This is the one fact about the external collaborator the consistency
invariant needs. -/
def Op.freshOk (st : StoreState) : Op → Prop
  | Op.tick qk notif =>
      match st.expirations.items.find? (fun it => it.qkey == qk) with
      | none => True
      | some it =>
          match lookupE st.entries it.value with
          | none => True
          | some (s, _) =>
              match tickTransition s notif with
              | none => True
              | some s2 => ∀ e ∈ st.entries, e.key = msgKey s2 → e.key = it.value
  | _ => True

instance (st : StoreState) (op : Op) : Decidable (op.freshOk st) := by
  cases op <;> simp only [Op.freshOk] <;>
    repeat first | exact inferInstance | split

/-- The states reachable from the empty store by store operations whose
external message ids are fresh. -/
inductive Reachable : StoreState → Prop
  | init : Reachable StoreState.initial
  | step {st : StoreState} (now : Nat) (op : Op) :
      Reachable st → op.freshOk st → Reachable (st.apply now op)

/-- User values are determined by their numeric id relative to the store:
no user recorded anywhere in the store shares an id with a *different*
value of `u`.  (Telegram ids are unique per user; two values with the
same id can only arise when the same user's profile data changed between
interactions.) -/
def goodUser (st : StoreState) (u : User) : Prop :=
  ∀ e ∈ st.entries, ∀ p ∈ e.session.creator :: e.session.participants,
    p.id = u.id → p = u

instance (st : StoreState) (u : User) : Decidable (goodUser st u) := by
  unfold goodUser; exact inferInstance

/-- The id-consistency side condition for one operation. -/
def Op.userOk (st : StoreState) : Op → Prop
  | Op.join _ u => goodUser st u
  | Op.leave _ u => goodUser st u
  | Op.addPart _ u => goodUser st u
  | _ => True

instance (st : StoreState) (op : Op) : Decidable (op.userOk st) := by
  cases op <;> simp only [Op.userOk] <;> exact inferInstance

/-- Reachability under the additional assumption that user identities are
id-consistent (the same human always presents the same `User` value). -/
inductive GoodReachable : StoreState → Prop
  | init : GoodReachable StoreState.initial
  | step {st : StoreState} (now : Nat) (op : Op) :
      GoodReachable st → op.freshOk st → op.userOk st →
      GoodReachable (st.apply now op)

/-- The structural well-formedness invariant of the store:
map keys are unique, queue keys are unique and below the fresh-key
counter, every map entry's stored `delay_queue::Key` identifies a pending
queue item holding that entry's cache key (`link`), every pending queue
item points back at the map entry that stores its queue key (`back`), and
waiting sessions are registered under their own message's key and never
live in an unsupported chat kind (`waitKey`). -/
structure WF (st : StoreState) : Prop where
  keysNodup : (st.entries.map (fun e => e.key)).Nodup
  qkeysNodup : (st.expirations.items.map (fun it => it.qkey)).Nodup
  qkeysLt : ∀ it ∈ st.expirations.items, it.qkey < st.expirations.next
  link : ∀ e ∈ st.entries, ∃ d,
    (⟨e.dkey, e.key, d⟩ : QueueItem) ∈ st.expirations.items
  back : ∀ it ∈ st.expirations.items, ∃ s,
    lookupE st.entries it.value = some (s, it.qkey)
  waitKey : ∀ e ∈ st.entries, e.session.state = SessionState.PomodoroWaiting →
    e.key = msgKey e.session ∧ e.session.message.chat.kind ≠ ChatKind.Channel

/-- The map/queue bijection exactly as claimed: every cache key in the map
has exactly one pending queue item (the one named by the stored
`delay_queue::Key`), and every pending queue item's cache key is present
in the map. -/
def MapQueueConsistent (st : StoreState) : Prop :=
  (∀ e ∈ st.entries,
      st.expirations.items.countP (fun it => it.value == e.key) = 1 ∧
      ∃ d, (⟨e.dkey, e.key, d⟩ : QueueItem) ∈ st.expirations.items) ∧
  (∀ it ∈ st.expirations.items, containsE st.entries it.value = true)

/-- Participant hygiene of a single session: the creator and the
participants determine each other by id — two recorded user values with
the same id are the same value. -/
def IdClean (s : Session) : Prop :=
  ∀ p ∈ s.creator :: s.participants, ∀ q ∈ s.creator :: s.participants,
    p.id = q.id → p = q

/-- Health of one session's participant data: non-empty participant set
containing the creator, and id-cleanliness. -/
abbrev SessOK (s : Session) : Prop :=
  s.participants ≠ [] ∧ s.creator ∈ s.participants ∧ IdClean s

/-- The participants invariant of the store: every registered session has
a non-empty participant set containing its creator, and is `IdClean`. -/
def PInv (st : StoreState) : Prop :=
  ∀ e ∈ st.entries, SessOK e.session

/-! ### Concrete fixtures used by witnesses and counterexamples -/

def chatG : Chat := ⟨10, ChatKind.Group⟩
def chatP : Chat := ⟨11, ChatKind.Private⟩
def chatC : Chat := ⟨12, ChatKind.Channel⟩
def alice : User := ⟨1, some "A", "a"⟩
def bob : User := ⟨2, some "B", "b"⟩
/-- A distinct `User` value carrying the same numeric id as `alice`
(the same person seen after a profile change). -/
def alice2 : User := ⟨1, some "A2", "a"⟩
def msgG1 : Message := ⟨chatG, 1⟩
def msgP1 : Message := ⟨chatP, 1⟩
def msgP2 : Message := ⟨chatP, 2⟩
def msgP5 : Message := ⟨chatP, 5⟩
def msgP99 : Message := ⟨chatP, 99⟩

/-- The store holding one freshly registered group Pomodoro by `alice`. -/
def stPomG : StoreState :=
  StoreState.initial.apply 100 (Op.newPomodoro msgG1 alice none none 3)

/-- The session value `stPomG` holds (start time 220 is the next
five-minute boundary after 100 at UTC minute 3). -/
def sessPomG : Session :=
  ⟨SessionState.PomodoroWaiting, msgG1, alice, [alice], 100, 220, 1500⟩

/-- A private Pomodoro registered on message 1 of chat 11, then started
immediately by its creator, the start notification being delivered as
message 2 of the chat. -/
def stBugP : StoreState :=
  (StoreState.initial.apply 100
      (Op.newPomodoro msgP1 alice none none 3)).apply 150
    (Op.startNow alice msgP1 (some msgP2))

/-- A private Pomodoro registered on message 1 of chat 11 whose start
deadline fired at 300 (no notification is sent in a private chat): the
session now runs under key (11, 1) with queue key 1 and deadline 1800. -/
def stRunP : StoreState :=
  (StoreState.initial.apply 100
      (Op.newPomodoro msgP1 alice none none 3)).apply 300 (Op.tick 0 none)

/-- The running session `stRunP` holds under key (11, 1). -/
def sessRunP : Session :=
  ⟨SessionState.PomodoroRunning, msgP1, alice, [alice], 100, 100, 1500⟩

/-- `stRunP` after its Pomodoro deadline fires at 1800 and the end-of-
session notification is delivered as message 99 of the chat. -/
def stBreakP : StoreState :=
  stRunP.apply 1800 (Op.tick 1 (some msgP99))

/-! ### Basic lemmas about the association-list map -/

theorem lookupE_cons (e : Entry) (es : List Entry) (k : CacheKey) :
    lookupE (e :: es) k =
      if e.key = k then some (e.session, e.dkey) else lookupE es k := by
  by_cases h : e.key = k <;> simp [lookupE, List.find?_cons, h]

theorem containsE_cons (e : Entry) (es : List Entry) (k : CacheKey) :
    containsE (e :: es) k = (e.key == k || containsE es k) := by
  simp [containsE]

theorem containsE_iff {es : List Entry} {k : CacheKey} :
    containsE es k = true ↔ ∃ e ∈ es, e.key = k := by
  simp [containsE]

theorem lookupE_isSome {es : List Entry} {k : CacheKey} :
    (lookupE es k).isSome = containsE es k := by
  induction es with
  | nil => rfl
  | cons e es ih =>
      rw [lookupE_cons, containsE_cons]
      by_cases h : e.key = k <;> simp [h, ih]

theorem containsE_of_lookupE {es : List Entry} {k : CacheKey} {r}
    (h : lookupE es k = some r) : containsE es k = true := by
  rw [← lookupE_isSome, h]; rfl

theorem lookupE_of_containsE {es : List Entry} {k : CacheKey}
    (h : containsE es k = true) : ∃ r, lookupE es k = some r := by
  rw [← lookupE_isSome] at h
  exact Option.isSome_iff_exists.mp h

theorem lookupE_none_of_not_containsE {es : List Entry} {k : CacheKey}
    (h : containsE es k = false) : lookupE es k = none := by
  have := @lookupE_isSome es k
  rw [h] at this
  exact Option.not_isSome_iff_eq_none.mp (by simp [this])

theorem lookupE_mem {es : List Entry} {k : CacheKey} {s : Session} {d : Nat}
    (h : lookupE es k = some (s, d)) : (⟨k, s, d⟩ : Entry) ∈ es := by
  induction es with
  | nil => simp [lookupE] at h
  | cons e es ih =>
      rw [lookupE_cons] at h
      by_cases hk : e.key = k
      · rw [if_pos hk] at h
        simp only [Option.some.injEq, Prod.mk.injEq] at h
        have h2 : ({ key := k, session := s, dkey := d } : Entry) = e := by
          cases e; simp_all
        exact List.mem_cons.mpr (Or.inl h2)
      · right
        exact ih (by simpa [hk] using h)

theorem lookupE_of_mem_nodup {es : List Entry} {e : Entry}
    (hnd : (es.map (fun e => e.key)).Nodup) (he : e ∈ es) :
    lookupE es e.key = some (e.session, e.dkey) := by
  induction es with
  | nil => simp at he
  | cons a es ih =>
      rw [lookupE_cons]
      rcases List.mem_cons.mp he with rfl | he
      · rw [if_pos rfl]
      · have hne : a.key ≠ e.key := by
          intro hk
          simp only [List.map_cons, List.nodup_cons] at hnd
          exact hnd.1 (hk ▸ List.mem_map_of_mem (fun e => e.key) he)
        rw [if_neg hne]
        exact ih (by simp only [List.map_cons, List.nodup_cons] at hnd; exact hnd.2) he

theorem lookupE_append_left {es es2 : List Entry} {k : CacheKey} {r}
    (h : lookupE es k = some r) : lookupE (es ++ es2) k = some r := by
  induction es with
  | nil => simp [lookupE] at h
  | cons e es ih =>
      rw [List.cons_append, lookupE_cons] at *
      by_cases hk : e.key = k <;> simp_all

theorem lookupE_append_right {es es2 : List Entry} {k : CacheKey}
    (h : containsE es k = false) : lookupE (es ++ es2) k = lookupE es2 k := by
  induction es with
  | nil => rfl
  | cons e es ih =>
      rw [containsE_cons] at h
      rw [List.cons_append, lookupE_cons]
      have h1 : ¬e.key = k := by
        intro hk; simp [hk] at h
      rw [if_neg h1]
      exact ih (by simpa [h1] using h)

theorem lookupE_filter_ne {es : List Entry} {k v : CacheKey} (h : v ≠ k) :
    lookupE (es.filter (fun e => e.key != k)) v = lookupE es v := by
  induction es with
  | nil => rfl
  | cons e es ih =>
      by_cases hk : e.key = k
      · rw [List.filter_cons_of_neg (by simp [hk]), lookupE_cons, if_neg (by
          rw [hk]; exact fun hv => h hv.symm), ih]
      · rw [List.filter_cons_of_pos (by simp [hk]), lookupE_cons, lookupE_cons, ih]

theorem containsE_filter_self (es : List Entry) (k : CacheKey) :
    containsE (es.filter (fun e => e.key != k)) k = false := by
  rw [Bool.eq_false_iff]
  intro h
  obtain ⟨e, he, hk⟩ := containsE_iff.mp h
  rw [List.mem_filter] at he
  exact absurd hk (by simpa using he.2)

theorem lookupE_modifyE (es : List Entry) (k v : CacheKey) (f : Session → Session) :
    lookupE (modifyE es k f) v =
      (lookupE es v).map (fun sd => (if v = k then f sd.1 else sd.1, sd.2)) := by
  induction es with
  | nil => rfl
  | cons e es ih =>
      simp only [modifyE, List.map_cons] at *
      by_cases hek : e.key = k
      · rw [if_pos (by simp [hek]), lookupE_cons, lookupE_cons]
        by_cases hev : e.key = v
        · have hvk : v = k := hev ▸ hek
          simp [hev, hvk]
        · rw [if_neg (by simpa [hek] using hek ▸ hev), if_neg hev, ih]
      · rw [if_neg (by simp [hek]), lookupE_cons, lookupE_cons]
        by_cases hev : e.key = v
        · have hvk : ¬v = k := fun h => hek (hev.trans h)
          simp [hev, hvk]
        · rw [if_neg hev, if_neg hev, ih]

theorem modifyE_map_key (es : List Entry) (k : CacheKey) (f : Session → Session) :
    (modifyE es k f).map (fun e => e.key) = es.map (fun e => e.key) := by
  simp only [modifyE, List.map_map]
  refine List.map_congr_left fun e _ => ?_
  by_cases h : e.key = k <;> simp [h]

theorem modifyE_map_dkey (es : List Entry) (k : CacheKey) (f : Session → Session) :
    (modifyE es k f).map (fun e => e.dkey) = es.map (fun e => e.dkey) := by
  simp only [modifyE, List.map_map]
  refine List.map_congr_left fun e _ => ?_
  by_cases h : e.key = k <;> simp [h]

theorem mem_modifyE {es : List Entry} {k : CacheKey} {f : Session → Session}
    {e2 : Entry} (h : e2 ∈ modifyE es k f) :
    ∃ e ∈ es, e2.key = e.key ∧ e2.dkey = e.dkey ∧
      ((e.key = k ∧ e2.session = f e.session) ∨
        (e.key ≠ k ∧ e2.session = e.session)) := by
  simp only [modifyE, List.mem_map] at h
  obtain ⟨e, he, heq⟩ := h
  refine ⟨e, he, ?_⟩
  by_cases hk : e.key = k
  · rw [if_pos (show (e.key == k) = true by simp [hk])] at heq
    subst heq; simp [hk]
  · rw [if_neg (by simp [hk])] at heq
    subst heq; simp [hk]

theorem insertE_of_not_containsE {es : List Entry} {k : CacheKey}
    (h : containsE es k = false) (s : Session) (dk : Nat) :
    insertE es k s dk = es ++ [⟨k, s, dk⟩] := by
  simp [insertE, h]

/-! ### Preservation of `WF` under the primitive map/queue mutations -/

theorem WF.initial : WF StoreState.initial := by
  constructor <;> simp [StoreState.initial]

theorem WF.qkey_inj {st : StoreState} (h : WF st) {it1 it2 : QueueItem}
    (h1 : it1 ∈ st.expirations.items) (h2 : it2 ∈ st.expirations.items)
    (hq : it1.qkey = it2.qkey) : it1 = it2 :=
  List.inj_on_of_nodup_map h.qkeysNodup h1 h2 hq

theorem WF.insertFresh {its : List QueueItem} {n : Nat} {es : List Entry}
    (h : WF ⟨⟨its, n⟩, es⟩) {k : CacheKey} (hk : containsE es k = false)
    {s : Session} {dl : Nat}
    (hwait : s.state = SessionState.PomodoroWaiting →
      k = msgKey s ∧ s.message.chat.kind ≠ ChatKind.Channel) :
    WF ⟨⟨its ++ [⟨n, k, dl⟩], n + 1⟩, es ++ [⟨k, s, n⟩]⟩ := by
  have hknotin : ∀ e ∈ es, e.key ≠ k := by
    intro e he hek
    rw [Bool.eq_false_iff] at hk
    exact hk (containsE_iff.mpr ⟨e, he, hek⟩)
  have hnlt : ∀ it ∈ its, it.qkey < n := h.qkeysLt
  constructor
  · rw [List.map_append, List.nodup_append]
    refine ⟨h.keysNodup, by simp, ?_⟩
    intro x hx
    simp only [List.mem_map] at hx
    obtain ⟨e, he, rfl⟩ := hx
    simp [hknotin e he]
  · rw [List.map_append, List.nodup_append]
    refine ⟨h.qkeysNodup, by simp, ?_⟩
    intro x hx
    simp only [List.mem_map] at hx
    obtain ⟨it, hit, rfl⟩ := hx
    simp only [List.map_cons, List.map_nil, List.mem_cons, List.not_mem_nil,
      or_false]
    exact Nat.ne_of_lt (hnlt it hit)
  · intro it hit
    rcases List.mem_append.mp hit with hit | hit
    · exact Nat.lt_succ_of_lt (hnlt it hit)
    · simp only [List.mem_singleton] at hit
      subst hit
      exact Nat.lt_succ_self n
  · intro e he
    rcases List.mem_append.mp he with he | he
    · obtain ⟨d, hd⟩ := h.link e he
      exact ⟨d, List.mem_append_left _ hd⟩
    · simp only [List.mem_singleton] at he
      subst he
      exact ⟨dl, List.mem_append_right _ (by simp)⟩
  · intro it hit
    rcases List.mem_append.mp hit with hit | hit
    · obtain ⟨s2, hs2⟩ := h.back it hit
      exact ⟨s2, lookupE_append_left hs2⟩
    · simp only [List.mem_singleton] at hit
      subst hit
      refine ⟨s, ?_⟩
      rw [lookupE_append_right hk]
      simp [lookupE_cons]
  · intro e he
    rcases List.mem_append.mp he with he | he
    · exact h.waitKey e he
    · simp only [List.mem_singleton] at he
      subst he
      exact hwait

theorem WF.removePair {st : StoreState} (h : WF st) {k : CacheKey} {s : Session}
    {dk : Nat} (hl : lookupE st.entries k = some (s, dk)) :
    WF ⟨⟨st.expirations.items.filter (fun it => it.qkey != dk),
          st.expirations.next⟩,
        st.entries.filter (fun e => e.key != k)⟩ := by
  have hmemk : (⟨k, s, dk⟩ : Entry) ∈ st.entries := lookupE_mem hl
  obtain ⟨d0, hd0⟩ := h.link _ hmemk
  constructor
  · exact h.keysNodup.sublist ((List.filter_sublist _).map _)
  · exact h.qkeysNodup.sublist ((List.filter_sublist _).map _)
  · intro it hit
    exact h.qkeysLt it (List.mem_filter.mp hit).1
  · intro e he
    rw [List.mem_filter] at he
    obtain ⟨he, hek⟩ := he
    obtain ⟨d, hd⟩ := h.link e he
    refine ⟨d, List.mem_filter.mpr ⟨hd, ?_⟩⟩
    simp only [bne_iff_ne, ne_eq, decide_eq_true_eq]
    intro hdk
    have : (⟨e.dkey, e.key, d⟩ : QueueItem) = ⟨dk, k, d0⟩ :=
      h.qkey_inj hd hd0 hdk
    have : e.key = k := congrArg QueueItem.value this
    exact absurd this (by simpa using hek)
  · intro it hit
    rw [List.mem_filter] at hit
    obtain ⟨hit, hitdk⟩ := hit
    obtain ⟨s2, hs2⟩ := h.back it hit
    have hvk : it.value ≠ k := by
      intro hv
      rw [hv, hl] at hs2
      have : dk = it.qkey := congrArg Prod.snd (Option.some.injEq .. ▸ hs2)
      exact absurd this.symm (by simpa using hitdk)
    exact ⟨s2, by rw [lookupE_filter_ne hvk]; exact hs2⟩
  · intro e he
    exact h.waitKey e (List.mem_filter.mp he).1

theorem WF.modify {st : StoreState} (h : WF st) (k : CacheKey)
    (f : Session → Session)
    (hf : ∀ s, (f s).state = s.state ∧ (f s).message = s.message) :
    WF { st with entries := modifyE st.entries k f } := by
  constructor
  · rw [modifyE_map_key]
    exact h.keysNodup
  · exact h.qkeysNodup
  · exact h.qkeysLt
  · intro e2 he2
    obtain ⟨e, he, hkey, hdkey, _⟩ := mem_modifyE he2
    obtain ⟨d, hd⟩ := h.link e he
    exact ⟨d, by rw [hkey, hdkey]; exact hd⟩
  · intro it hit
    obtain ⟨s2, hs2⟩ := h.back it hit
    refine ⟨if it.value = k then f s2 else s2, ?_⟩
    rw [lookupE_modifyE, hs2]
    by_cases hv : it.value = k <;> simp [hv]
  · intro e2 he2
    obtain ⟨e, he, hkey, _, hsess⟩ := mem_modifyE he2
    rcases hsess with ⟨_, hsess⟩ | ⟨_, hsess⟩
    · intro hstate
      rw [hsess, (hf e.session).1] at hstate
      have := h.waitKey e he hstate
      rw [hkey, hsess]
      unfold msgKey
      rw [(hf e.session).2]
      exact this
    · intro hstate
      rw [hsess] at hstate
      have := h.waitKey e he hstate
      rw [hkey, hsess]
      exact this

/-! ### Small facts about sessions and operations -/

theorem notify_on_start_state (s : Session) (notif : Option Message) :
    (s.notify_participants_on_start notif).state = s.state := by
  cases notif <;> rfl

theorem notify_on_end_state (s : Session) (notif : Option Message) :
    (s.notify_participants_on_end notif).state = s.state := by
  cases notif <;> rfl

theorem notify_on_start_parts (s : Session) (notif : Option Message) :
    (s.notify_participants_on_start notif).participants = s.participants ∧
      (s.notify_participants_on_start notif).creator = s.creator := by
  cases notif <;> exact ⟨rfl, rfl⟩

theorem notify_on_end_parts (s : Session) (notif : Option Message) :
    (s.notify_participants_on_end notif).participants = s.participants ∧
      (s.notify_participants_on_end notif).creator = s.creator := by
  cases notif <;> exact ⟨rfl, rfl⟩

theorem leaveSession_state_message (u : User) (s : Session) :
    ((leaveSession u s).1).state = s.state ∧
      ((leaveSession u s).1).message = s.message := by
  unfold leaveSession
  by_cases hcr : (s.creator == u) = true
  · rw [if_pos hcr]
    cases (s.participants.filter (fun uid => uid.id != u.id)).head? <;>
      exact ⟨rfl, rfl⟩
  · rw [if_neg hcr]
    exact ⟨rfl, rfl⟩

theorem containsE_modifyE (es : List Entry) (k v : CacheKey) (f : Session → Session) :
    containsE (modifyE es k f) v = containsE es v := by
  rw [← lookupE_isSome, ← lookupE_isSome, lookupE_modifyE]
  cases lookupE es v <;> rfl

theorem session_exists_of_containsE {st : StoreState} {k : CacheKey}
    (h : containsE st.entries k = true) : st.session_exists k = Except.ok () := by
  unfold StoreState.session_exists
  rw [if_pos h]

theorem session_exists_of_not_containsE {st : StoreState} {k : CacheKey}
    (h : containsE st.entries k = false) :
    st.session_exists k = Except.error ("A Pomodoro in chat " ++
      toString k.chat_id ++ " with id " ++ toString k.message_id ++
      " does not exist!") := by
  unfold StoreState.session_exists
  rw [if_neg (by simp [h])]

/-! ### Preservation of `WF` by every store operation -/

theorem wf_add_session_to_queue {st : StoreState} (h : WF st) {p : Session}
    (hc : containsE st.entries (msgKey p) = false)
    (hwait : p.state = SessionState.PomodoroWaiting →
      p.message.chat.kind ≠ ChatKind.Channel) :
    WF (st.add_session_to_queue p) := by
  obtain ⟨⟨its, n⟩, es⟩ := st
  show WF ⟨⟨its ++ [⟨n, msgKey p, p.start_time⟩], n + 1⟩,
    insertE es (msgKey p) p n⟩
  rw [insertE_of_not_containsE hc]
  exact WF.insertFresh h hc (fun hs => ⟨rfl, hwait hs⟩)

theorem wf_new_pomodoro {st : StoreState} (h : WF st) (m : Message) (c : User)
    (t d : Option Nat) (now um : Nat) : WF (st.new_pomodoro m c t d now um).2 := by
  simp only [StoreState.new_pomodoro]
  by_cases hc : containsE st.entries (CacheKey.new m.chat.id m.id) = true
  · rw [session_exists_of_containsE hc]
    exact h
  · rw [Bool.not_eq_true] at hc
    rw [session_exists_of_not_containsE hc]
    unfold Session.new_pomodoro
    cases hkind : m.chat.kind
    all_goals simp only
    · exact wf_add_session_to_queue h hc (fun _ => by simp [hkind])
    · exact wf_add_session_to_queue h hc (fun _ => by simp [hkind])
    · exact wf_add_session_to_queue h hc (fun _ => by simp [hkind])
    · exact h

theorem wf_new_break {st : StoreState} (h : WF st) (m : Message) (c : User)
    (t d : Option Nat) (now : Nat) : WF (st.new_break m c t d now).2 := by
  simp only [StoreState.new_break]
  by_cases hc : containsE st.entries (CacheKey.new m.chat.id m.id) = true
  · rw [session_exists_of_containsE hc]
    exact h
  · rw [Bool.not_eq_true] at hc
    rw [session_exists_of_not_containsE hc]
    unfold Session.new_break
    exact wf_add_session_to_queue h hc (fun hs => by cases hs)

theorem wf_start_session_now {st : StoreState} (h : WF st) (u : User)
    (m : Message) (now : Nat) (notif : Option Message) :
    WF (st.start_session_now u m now notif).2 := by
  simp only [StoreState.start_session_now]
  by_cases hc : containsE st.entries (CacheKey.new m.chat.id m.id) = true
  · rw [session_exists_of_containsE hc]
    by_cases ho : (st.is_owner (CacheKey.new m.chat.id m.id) u.id) = true
    · obtain ⟨⟨s, dk⟩, hl⟩ := lookupE_of_containsE hc
      simp only [ho, if_true, removeE, hl]
      have h1 := h.removePair hl
      obtain ⟨⟨its, n⟩, es⟩ := st
      simp only [DelayQueue.removeKey, DelayQueue.insert, DelayQueue.insertAt]
      rw [insertE_of_not_containsE (containsE_filter_self es _)]
      refine WF.insertFresh h1 (containsE_filter_self es _) (fun hs => ?_)
      rw [notify_on_start_state] at hs
      cases hs
    · simp only [ho, if_false, Bool.false_eq_true]
      exact h
  · rw [Bool.not_eq_true] at hc
    rw [session_exists_of_not_containsE hc]
    exact h

theorem wf_join_latest_session {st : StoreState} (h : WF st) (chat : Chat)
    (u : User) : WF (st.join_latest_session chat u).2 := by
  simp only [StoreState.join_latest_session]
  cases hnw : st.newest_session_in_chat chat with
  | none => exact h
  | some ck =>
      simp only
      cases hl : lookupE st.entries ck with
      | none => exact h
      | some sd =>
          simp only
          by_cases hp : sd.1.participants.contains u = true
          · simp only [hp, if_true]
            exact h
          · simp only [hp, if_false, Bool.false_eq_true]
            exact h.modify ck _ (fun s => ⟨rfl, rfl⟩)

theorem wf_add_participant {st : StoreState} (h : WF st) (m : Message)
    (u : User) : WF (st.add_participant m u).2 := by
  simp only [StoreState.add_participant]
  by_cases hc : containsE st.entries (CacheKey.new m.chat.id m.id) = true
  · rw [session_exists_of_containsE hc]
    cases hl : lookupE st.entries (CacheKey.new m.chat.id m.id) with
    | none => exact h
    | some sd =>
        simp only
        by_cases hp : sd.1.participants.contains u = true
        · simp only [hp, if_true]
          exact h
        · simp only [hp, if_false, Bool.false_eq_true]
          exact h.modify _ _ (fun s => ⟨rfl, rfl⟩)
  · rw [Bool.not_eq_true] at hc
    rw [session_exists_of_not_containsE hc]
    exact h

theorem wf_remove_participant {st : StoreState} (h : WF st) (ck : CacheKey)
    (u : User) : WF (st.remove_participant ck u).2.1 := by
  simp only [StoreState.remove_participant]
  by_cases hc : containsE st.entries ck = true
  · rw [session_exists_of_containsE hc]
    cases hl : lookupE st.entries ck with
    | none => exact h
    | some sd =>
        simp only
        have hst1 : WF { st with entries :=
            (modifyE st.entries ck (fun s => (leaveSession u s).1)) } :=
          h.modify ck _ (fun s => leaveSession_state_message u s)
        by_cases he : (leaveSession u sd.1).2 = true
        · simp only [he, if_true]
          simp only [StoreState.remove_session_from_queue]
          have hc1 : containsE (modifyE st.entries ck
              (fun s => (leaveSession u s).1)) ck = true := by
            rw [containsE_modifyE]; exact hc
          rw [@session_exists_of_containsE { st with entries :=
            (modifyE st.entries ck (fun s => (leaveSession u s).1)) } ck hc1]
          have hl1 : lookupE (modifyE st.entries ck
              (fun s => (leaveSession u s).1)) ck =
              some ((leaveSession u sd.1).1, sd.2) := by
            rw [lookupE_modifyE, hl]
            simp
          simp only [removeE, hl1]
          exact hst1.removePair hl1
        · simp only [he, if_false, Bool.false_eq_true]
          exact hst1
  · rw [Bool.not_eq_true] at hc
    rw [session_exists_of_not_containsE hc]
    exact h

theorem wf_leave_latest_session {st : StoreState} (h : WF st) (chat : Chat)
    (u : User) : WF (st.leave_latest_session chat u).2.1 := by
  simp only [StoreState.leave_latest_session]
  cases hf : (((st.sessions_in_chat chat).insertionSort byMessageId).reverse).find?
      (fun s => s.participants.contains u) with
  | none => exact h
  | some s => exact wf_remove_participant h _ u

theorem wf_start_session {st : StoreState} (h : WF st) {p : Session} (now : Nat)
    (hc : containsE st.entries (msgKey p) = false) :
    WF (st.start_session p now) := by
  obtain ⟨⟨its, n⟩, es⟩ := st
  show WF ⟨⟨its ++ [⟨n, msgKey p, now + p.duration⟩], n + 1⟩,
    insertE es (msgKey p) { p with state := SessionState.PomodoroRunning } n⟩
  rw [insertE_of_not_containsE hc]
  exact WF.insertFresh h hc (fun hs => by cases hs)

theorem wf_start_break {st : StoreState} (h : WF st) {p : Session} (now : Nat)
    (hc : containsE st.entries (msgKey p) = false) :
    WF (st.start_break p now) := by
  obtain ⟨⟨its, n⟩, es⟩ := st
  show WF ⟨⟨its ++ [⟨n, msgKey p, now + 60 * 5⟩], n + 1⟩,
    insertE es (msgKey p) p.convert_to_break n⟩
  rw [insertE_of_not_containsE hc]
  exact WF.insertFresh h hc (fun hs => by cases hs)

theorem fresh_containsE {st : StoreState} {v : CacheKey} {p : Session}
    (hfr : ∀ e ∈ st.entries, e.key = msgKey p → e.key = v) :
    containsE (st.entries.filter (fun e => e.key != v)) (msgKey p) = false := by
  rw [Bool.eq_false_iff]
  intro hcc
  obtain ⟨e, he, hek⟩ := containsE_iff.mp hcc
  rw [List.mem_filter] at he
  have := hfr e he.1 hek
  exact absurd this (by simpa using he.2)

theorem wf_tick {st : StoreState} (h : WF st) (qk now : Nat)
    (notif : Option Message) (hfresh : Op.freshOk st (Op.tick qk notif)) :
    WF (st.tick qk now notif) := by
  simp only [StoreState.tick]
  simp only [Op.freshOk] at hfresh
  cases hfind : st.expirations.items.find? (fun it => it.qkey == qk) with
  | none => exact h
  | some it =>
    simp only [hfind] at hfresh
    have hmem : it ∈ st.expirations.items := List.mem_of_find?_eq_some hfind
    have hq : it.qkey = qk := by
      have := List.find?_some hfind
      simpa using this
    subst hq
    obtain ⟨s, hl⟩ := h.back it hmem
    have h2 : WF ⟨⟨st.expirations.items.filter (fun x => x.qkey != it.qkey),
        st.expirations.next⟩,
        st.entries.filter (fun e => e.key != it.value)⟩ := h.removePair hl
    simp only [removeE, DelayQueue.removeKey, hl, hfind]
    simp only [hl] at hfresh
    by_cases hw : s.is_waiting = true
    · simp only [hw, if_true]
      cases hkind : s.message.chat.kind
      all_goals simp only
      · rw [show tickTransition s notif =
            some { s with state := SessionState.PomodoroRunning } from by
            simp [tickTransition, hw, hkind]] at hfresh
        exact wf_start_session h2 now (fresh_containsE hfresh)
      · rw [show tickTransition s notif =
            some { s.notify_participants_on_start notif with
              state := SessionState.PomodoroRunning } from by
            simp [tickTransition, hw, hkind]] at hfresh
        exact wf_start_session h2 now (fresh_containsE hfresh)
      · rw [show tickTransition s notif =
            some { s.notify_participants_on_start notif with
              state := SessionState.PomodoroRunning } from by
            simp [tickTransition, hw, hkind]] at hfresh
        exact wf_start_session h2 now (fresh_containsE hfresh)
      · exact h2
    · simp only [hw, if_false, Bool.false_eq_true]
      by_cases hr : s.is_running = true
      · simp only [hr, if_true]
        rw [show tickTransition s notif =
            some ((s.notify_participants_on_end notif).convert_to_break) from by
            simp [tickTransition, hw, hr]] at hfresh
        exact wf_start_break h2 now (fresh_containsE hfresh)
      · simp only [hr, if_false, Bool.false_eq_true]
        by_cases hb : s.is_awaiting_break = true
        · simp only [hb, if_true]
          rw [show tickTransition s notif = some s.convert_to_break from by
              simp [tickTransition, hw, hr, hb]] at hfresh
          exact wf_start_break h2 now (fresh_containsE hfresh)
        · simp only [hb, if_false, Bool.false_eq_true]
          exact h2

/-- Every reachable store is well-formed. -/
theorem reachable_wf {st : StoreState} (h : Reachable st) : WF st := by
  induction h with
  | init => exact WF.initial
  | step now op hr hfresh ih =>
      cases op with
      | newPomodoro m c t d um => exact wf_new_pomodoro ih m c t d now um
      | newBreak m c t d => exact wf_new_break ih m c t d now
      | startNow u m notif => exact wf_start_session_now ih u m now notif
      | join c u => exact wf_join_latest_session ih c u
      | leave c u => exact wf_leave_latest_session ih c u
      | addPart m u => exact wf_add_participant ih m u
      | tick qk notif => exact wf_tick ih qk now notif hfresh

theorem wf_mapQueueConsistent {st : StoreState} (h : WF st) :
    MapQueueConsistent st := by
  constructor
  · intro e he
    obtain ⟨d0, hd0⟩ := h.link e he
    refine ⟨?_, d0, hd0⟩
    have hlook : lookupE st.entries e.key = some (e.session, e.dkey) :=
      lookupE_of_mem_nodup h.keysNodup he
    have hiff : ∀ it ∈ st.expirations.items,
        ((it.value == e.key) = true) ↔
        ((it == (⟨e.dkey, e.key, d0⟩ : QueueItem)) = true) := by
      intro it hit
      constructor
      · intro hv
        rw [beq_iff_eq] at hv ⊢
        obtain ⟨s2, hs2⟩ := h.back it hit
        rw [hv, hlook] at hs2
        simp only [Option.some.injEq, Prod.mk.injEq] at hs2
        exact h.qkey_inj hit hd0 hs2.2.symm
      · intro hit2
        rw [beq_iff_eq] at hit2 ⊢
        rw [hit2]
    rw [List.countP_congr hiff]
    have hcount : st.expirations.items.countP
        (fun it => it == (⟨e.dkey, e.key, d0⟩ : QueueItem)) =
        st.expirations.items.count (⟨e.dkey, e.key, d0⟩ : QueueItem) := rfl
    rw [hcount]
    exact List.count_eq_one_of_mem (h.qkeysNodup.of_map) hd0
  · intro it hit
    obtain ⟨s2, hs2⟩ := h.back it hit
    exact containsE_of_lookupE hs2

/-- **C1** (confirmed).  For every sequence of store operations
(creation, start-now, join, leave, button-join and scheduler
pop/re-register transitions, each with fresh externally supplied message
ids), the reachable state keeps the entries map and the expirations queue
pairwise consistent: every cache key in the map has exactly one pending
queue item — the one named by the `delay_queue::Key` stored beside it —
and every pending queue item's cache key is present in the map. -/
theorem c1_map_queue_bijection {st : StoreState} (h : Reachable st) :
    MapQueueConsistent st :=
  wf_mapQueueConsistent (reachable_wf h)

/-- Witness for C1 at a concrete two-operation run (a group Pomodoro is
registered, then its start deadline fires). -/
theorem c1_map_queue_bijection_witness :
    MapQueueConsistent
      ((StoreState.initial.apply 100
          (Op.newPomodoro ⟨⟨10, ChatKind.Group⟩, 1⟩ ⟨1, some "A", "a"⟩
            none none 3)).apply 220 (Op.tick 0 none)) :=
  c1_map_queue_bijection
    (Reachable.step 220 (Op.tick 0 none)
      (Reachable.step 100
        (Op.newPomodoro ⟨⟨10, ChatKind.Group⟩, 1⟩ ⟨1, some "A", "a"⟩ none none 3)
        Reachable.init trivial)
      (by decide))

theorem notify_on_start_duration (s : Session) (notif : Option Message) :
    (s.notify_participants_on_start notif).duration = s.duration := by
  cases notif <;> rfl

theorem notify_on_end_duration (s : Session) (notif : Option Message) :
    (s.notify_participants_on_end notif).duration = s.duration := by
  cases notif <;> rfl

/-- **C10** (confirmed).  For every key that is not present in the store,
`add_participant` — the inline-button join path — returns a *successful*
result carrying the text "Pomodoro not found!" and leaves the store
unchanged. -/
theorem c10_add_participant_not_found {st : StoreState} {m : Message} {u : User}
    (h : containsE st.entries (CacheKey.new m.chat.id m.id) = false) :
    st.add_participant m u = (Except.ok "Pomodoro not found!", st) := by
  simp only [StoreState.add_participant]
  rw [session_exists_of_not_containsE h]

/-- Witness for C10: pressing "join" on an unregistered message in the
empty store. -/
theorem c10_add_participant_not_found_witness :
    StoreState.initial.add_participant ⟨⟨10, ChatKind.Group⟩, 1⟩
        ⟨1, none, "a"⟩ =
      (Except.ok "Pomodoro not found!", StoreState.initial) :=
  c10_add_participant_not_found (by decide)

/-- **C4** (confirmed).  For every registered session and every caller
whose user id differs from the recorded creator's id, `start_session_now`
returns the "Only the creator is allowed to start the session" error and
returns the store completely unchanged (state, participants and pending
deadline included). -/
theorem c4_start_now_not_owner {st : StoreState} {u : User} {m : Message}
    {s : Session} {dk : Nat} (now : Nat) (notif : Option Message)
    (hl : lookupE st.entries (CacheKey.new m.chat.id m.id) = some (s, dk))
    (hne : u.id ≠ s.creator.id) :
    st.start_session_now u m now notif =
      (Except.error "Only the creator is allowed to start the session", st) := by
  simp only [StoreState.start_session_now]
  rw [session_exists_of_containsE (containsE_of_lookupE hl)]
  have ho : st.is_owner (CacheKey.new m.chat.id m.id) u.id = false := by
    simp only [StoreState.is_owner, hl, containsE_of_lookupE hl, Bool.true_and]
    exact beq_eq_false_iff_ne.mpr (fun hh => hne hh.symm)
  rw [if_neg (by simp [ho])]

/-- Witness for C4: `bob` tries to start `alice`'s freshly registered
group Pomodoro. -/
theorem c4_start_now_not_owner_witness :
    stPomG.start_session_now bob msgG1 150 none =
      (Except.error "Only the creator is allowed to start the session",
        stPomG) :=
  c4_start_now_not_owner 150 none
    (show lookupE stPomG.entries (CacheKey.new msgG1.chat.id msgG1.id) =
      some (sessPomG, 0) from by decide)
    (by decide)

/-- **C5** (confirmed).  When the creator calls `start_session_now` on a
registered session in state `PomodoroWaiting`, the call answers "Let's
go!", removes the session's old queue item (the stored
`delay_queue::Key` no longer occurs in the queue), re-inserts the key
with a fresh queue key and a deadline of `now + duration` — independent
of the original `start_time` — and stores the session back with state
`PomodoroRunning` and unchanged participants, creator and duration. -/
theorem c5_start_now_rearms {st : StoreState} (hre : Reachable st) {u : User}
    {m : Message} {s : Session} {dk : Nat} (now : Nat) (notif : Option Message)
    (hl : lookupE st.entries (CacheKey.new m.chat.id m.id) = some (s, dk))
    (_hwait : s.state = SessionState.PomodoroWaiting)
    (howner : u.id = s.creator.id) :
    (st.start_session_now u m now notif).1 = Except.ok "Let's go!" ∧
    (∀ it ∈ (st.start_session_now u m now notif).2.expirations.items,
        it.qkey ≠ dk) ∧
    (⟨st.expirations.next, CacheKey.new m.chat.id m.id, now + s.duration⟩ :
        QueueItem) ∈ (st.start_session_now u m now notif).2.expirations.items ∧
    ∃ s2, lookupE (st.start_session_now u m now notif).2.entries
        (CacheKey.new m.chat.id m.id) = some (s2, st.expirations.next) ∧
      s2.state = SessionState.PomodoroRunning ∧
      s2.participants = s.participants ∧ s2.creator = s.creator ∧
      s2.duration = s.duration := by
  have h := reachable_wf hre
  have hdk : dk < st.expirations.next := by
    obtain ⟨d0, hd0⟩ := h.link _ (lookupE_mem hl)
    exact h.qkeysLt _ hd0
  simp only [StoreState.start_session_now]
  rw [session_exists_of_containsE (containsE_of_lookupE hl)]
  have ho : st.is_owner (CacheKey.new m.chat.id m.id) u.id = true := by
    simp only [StoreState.is_owner, hl, containsE_of_lookupE hl, Bool.true_and]
    exact beq_iff_eq.mpr howner.symm
  rw [if_pos (by simp [ho])]
  simp only [removeE, hl, DelayQueue.removeKey, DelayQueue.insert,
    DelayQueue.insertAt]
  refine ⟨by trivial, ?_, ?_, ?_⟩
  · intro it hit
    rcases List.mem_append.mp hit with hit | hit
    · have := (List.mem_filter.mp hit).2
      simpa using this
    · simp only [List.mem_singleton] at hit
      subst hit
      exact Nat.ne_of_gt hdk
  · refine List.mem_append_right _ ?_
    rw [notify_on_start_duration]
    simp
  · refine ⟨{ s.notify_participants_on_start notif with
        state := SessionState.PomodoroRunning }, ?_, rfl, ?_, ?_, ?_⟩
    · rw [insertE_of_not_containsE (containsE_filter_self st.entries _)]
      rw [lookupE_append_right (containsE_filter_self st.entries _)]
      have : ({ s with state := SessionState.PomodoroRunning }
          : Session).notify_participants_on_start notif =
          { s.notify_participants_on_start notif with
            state := SessionState.PomodoroRunning } := by
        cases notif <;> rfl
      rw [lookupE_cons, if_pos rfl, this]
    · exact (notify_on_start_parts s notif).1
    · exact (notify_on_start_parts s notif).2
    · exact notify_on_start_duration s notif

/-- Witness for C5: the creator starts a freshly registered group
Pomodoro early; the claim's conclusion holds there, in particular the
re-armed deadline item `⟨1, key, 150 + 1500⟩` is in the queue. -/
theorem c5_start_now_rearms_witness :
    (stPomG.start_session_now alice msgG1 150 none).1 =
        Except.ok "Let's go!" ∧
      (⟨stPomG.expirations.next, CacheKey.new msgG1.chat.id msgG1.id,
          150 + sessPomG.duration⟩ : QueueItem) ∈
        (stPomG.start_session_now alice msgG1 150 none).2.expirations.items := by
  have h := c5_start_now_rearms
    (Reachable.step 100 (Op.newPomodoro msgG1 alice none none 3)
      Reachable.init trivial)
    150 none
    (show lookupE stPomG.entries (CacheKey.new msgG1.chat.id msgG1.id) =
      some (sessPomG, 0) from by decide)
    (by decide)
    (show alice.id = sessPomG.creator.id from by decide)
  exact ⟨h.1, h.2.2.1⟩

/-- **C8** counterexample.  The claim's "otherwise it inserts" direction
fails: `new_pomodoro` for a completely unoccupied key still fails — with
no insertion — when the message's chat is neither private nor a group
nor a supergroup (`Session::new_pomodoro` rejects the chat kind before
anything is queued). -/
theorem c8_register_counterexample :
    StoreState.initial.new_pomodoro ⟨chatC, 1⟩ alice none none 100 0 =
      (Except.error
        "Chat kind is neither a group nor a supergroup nor a private chat",
        StoreState.initial) := by
  rfl

/-- **C8** (corrected).  Registration fails and leaves the map and queue
unchanged when a session already occupies the key; for an unoccupied key,
`new_pomodoro` inserts into both structures — with the queue deadline
equal to the session's `start_time` and the participant set exactly
`[creator]` — *provided* the chat is private, a group or a supergroup
(the non-channel case; callers only construct those), and `new_break`
does so unconditionally. -/
theorem c8_register_amended (st : StoreState) (m : Message) (c : User)
    (t d : Option Nat) (now um : Nat) :
    (containsE st.entries (CacheKey.new m.chat.id m.id) = true →
      (st.new_pomodoro m c t d now um).2 = st ∧
      (st.new_break m c t d now).2 = st ∧
      (∃ e1, (st.new_pomodoro m c t d now um).1 = Except.error e1) ∧
      (∃ e2, (st.new_break m c t d now).1 = Except.error e2)) ∧
    (containsE st.entries (CacheKey.new m.chat.id m.id) = false →
      m.chat.kind ≠ ChatKind.Channel →
      ∃ s0, Session.new_pomodoro m c t d now um = Except.ok s0 ∧
        s0.participants = [c] ∧
        (st.new_pomodoro m c t d now um).1 = Except.ok () ∧
        (st.new_pomodoro m c t d now um).2.entries =
          st.entries ++ [⟨CacheKey.new m.chat.id m.id, s0, st.expirations.next⟩] ∧
        (st.new_pomodoro m c t d now um).2.expirations.items =
          st.expirations.items ++
            [⟨st.expirations.next, CacheKey.new m.chat.id m.id, s0.start_time⟩]) ∧
    (containsE st.entries (CacheKey.new m.chat.id m.id) = false →
      ∃ s0, Session.new_break m c t d now = Except.ok s0 ∧
        s0.participants = [c] ∧
        (st.new_break m c t d now).1 = Except.ok () ∧
        (st.new_break m c t d now).2.entries =
          st.entries ++ [⟨CacheKey.new m.chat.id m.id, s0, st.expirations.next⟩] ∧
        (st.new_break m c t d now).2.expirations.items =
          st.expirations.items ++
            [⟨st.expirations.next, CacheKey.new m.chat.id m.id, s0.start_time⟩]) := by
  refine ⟨?_, ?_, ?_⟩
  · intro hc
    simp only [StoreState.new_pomodoro, StoreState.new_break,
      session_exists_of_containsE hc]
    exact ⟨by trivial, by trivial, ⟨_, by trivial⟩, ⟨_, by trivial⟩⟩
  · intro hc hkind
    simp only [StoreState.new_pomodoro, session_exists_of_not_containsE hc]
    unfold Session.new_pomodoro
    cases hkindc : m.chat.kind
    all_goals simp only
    · refine ⟨_, rfl, by trivial, by trivial, ?_, ?_⟩
      · simp only [StoreState.add_session_to_queue, DelayQueue.insertAt]
        rw [insertE_of_not_containsE hc]
      · simp only [StoreState.add_session_to_queue, DelayQueue.insertAt]
    · refine ⟨_, rfl, by trivial, by trivial, ?_, ?_⟩
      · simp only [StoreState.add_session_to_queue, DelayQueue.insertAt]
        rw [insertE_of_not_containsE hc]
      · simp only [StoreState.add_session_to_queue, DelayQueue.insertAt]
    · refine ⟨_, rfl, by trivial, by trivial, ?_, ?_⟩
      · simp only [StoreState.add_session_to_queue, DelayQueue.insertAt]
        rw [insertE_of_not_containsE hc]
      · simp only [StoreState.add_session_to_queue, DelayQueue.insertAt]
    · exact absurd hkindc hkind
  · intro hc
    simp only [StoreState.new_break, session_exists_of_not_containsE hc]
    unfold Session.new_break
    refine ⟨_, rfl, by trivial, by trivial, ?_, ?_⟩
    · simp only [StoreState.add_session_to_queue, DelayQueue.insertAt]
      rw [insertE_of_not_containsE hc]
    · simp only [StoreState.add_session_to_queue, DelayQueue.insertAt]

/-- Witness for C8: re-registering an occupied key leaves the store
unchanged, and registering a break in the empty store succeeds. -/
theorem c8_register_amended_witness :
    (stPomG.new_pomodoro msgG1 alice none none 200 0).2 = stPomG ∧
    (StoreState.initial.new_break msgP5 alice none none 100).1 =
      Except.ok () := by
  refine ⟨((c8_register_amended stPomG msgG1 alice none none 200 0).1
    (by decide)).1, ?_⟩
  obtain ⟨s0, _, _, hok, _, _⟩ :=
    (c8_register_amended StoreState.initial msgP5 alice none none 100 0).2.2
      (by decide)
  exact hok

/-! ### The participants invariant (C2) -/

theorem pinv_def {st : StoreState} (h : PInv st) {e : Entry}
    (he : e ∈ st.entries) : SessOK e.session := h e he

theorem goodReachable_reachable {st : StoreState} (h : GoodReachable st) :
    Reachable st := by
  induction h with
  | init => exact Reachable.init
  | step now op _ hfresh _ ih => exact Reachable.step now op ih hfresh

theorem idClean_subset {s s2 : Session}
    (hsub : ∀ x ∈ s2.creator :: s2.participants, x ∈ s.creator :: s.participants)
    (hic : IdClean s) : IdClean s2 :=
  fun p hp q hq hid => hic p (hsub p hp) q (hsub q hq) hid

theorem idClean_creation (c : User) {s : Session} (hc : s.creator = c)
    (hps : s.participants = [c]) : IdClean s := by
  intro p hp q hq _
  rw [hc, hps] at hp hq
  simp only [List.mem_cons, List.mem_singleton, List.not_mem_nil, or_false] at hp hq
  rcases hp with rfl | rfl <;> rcases hq with rfl | rfl <;> rfl

theorem leaveSession_not_emptied {u : User} {p : Session}
    (hcr : p.creator ∈ p.participants) (hic : IdClean p)
    (hgp : ∀ x ∈ p.creator :: p.participants, x.id = u.id → x = u)
    (hflag : (leaveSession u p).2 = false) :
    ((leaveSession u p).1).participants ≠ [] ∧
    ((leaveSession u p).1).creator ∈ ((leaveSession u p).1).participants ∧
    IdClean ((leaveSession u p).1) := by
  unfold leaveSession at hflag ⊢
  have hsubparts : ∀ x ∈ p.participants.filter (fun uid => uid.id != u.id),
      x ∈ p.participants := fun x hx => (List.mem_filter.mp hx).1
  by_cases hcu : (p.creator == u) = true
  · rw [if_pos hcu] at hflag ⊢
    cases hh : (p.participants.filter (fun uid => uid.id != u.id)).head? with
    | none => rw [hh] at hflag; simp at hflag
    | some w =>
        rw [hh] at hflag
        simp only at hflag ⊢
        have hwmem : w ∈ p.participants.filter (fun uid => uid.id != u.id) := by
          cases hl : p.participants.filter (fun uid => uid.id != u.id) with
          | nil => rw [hl] at hh; cases hh
          | cons a t =>
              rw [hl] at hh
              simp only [List.head?_cons, Option.some.injEq] at hh
              subst hh
              exact List.mem_cons_self a t
        refine ⟨List.ne_nil_of_mem hwmem, hwmem, ?_⟩
        refine idClean_subset ?_ hic
        intro x hx
        simp only [List.mem_cons] at hx
        rcases hx with rfl | hx
        · exact List.mem_cons_of_mem _ (hsubparts x hwmem)
        · exact List.mem_cons_of_mem _ (hsubparts x hx)
  · rw [if_neg hcu] at hflag ⊢
    have hcne : p.creator ≠ u := by simpa using hcu
    have hcid : p.creator.id ≠ u.id :=
      fun hid => hcne (hgp p.creator (List.mem_cons_self ..) hid)
    have hcr2 : p.creator ∈ p.participants.filter (fun uid => uid.id != u.id) :=
      List.mem_filter.mpr ⟨hcr, by simp [hcid]⟩
    refine ⟨List.ne_nil_of_mem hcr2, hcr2, ?_⟩
    refine idClean_subset ?_ hic
    intro x hx
    simp only [List.mem_cons] at hx
    rcases hx with rfl | hx
    · exact List.mem_cons_self ..
    · exact List.mem_cons_of_mem _ (hsubparts x hx)

theorem pinv_join_modify {st : StoreState} (hp : PInv st) {u : User}
    (hg : goodUser st u) (k : CacheKey) :
    PInv { st with entries := (modifyE st.entries k
      (fun s => { s with participants := s.participants ++ [u] })) } := by
  intro e2 he2
  simp only at he2
  obtain ⟨e, he, _, _, hsess⟩ := mem_modifyE he2
  obtain ⟨hne, hcr, hic⟩ := hp e he
  rcases hsess with ⟨_, hsess⟩ | ⟨_, hsess⟩
  · rw [hsess]
    refine ⟨by simp, List.mem_append_left _ hcr, ?_⟩
    intro p hp' q hq' hid
    have hmem : ∀ x, x ∈ e.session.creator :: (e.session.participants ++ [u]) →
        x ∈ e.session.creator :: e.session.participants ∨ x = u := by
      intro x hx
      simp only [List.mem_cons, List.mem_append, List.mem_singleton,
        List.not_mem_nil, or_false] at hx
      rcases hx with rfl | hx | rfl
      · exact Or.inl (List.mem_cons_self ..)
      · exact Or.inl (List.mem_cons_of_mem _ hx)
      · exact Or.inr rfl
    rcases hmem p hp' with hpm | heq
    · rcases hmem q hq' with hqm | heq2
      · exact hic p hpm q hqm hid
      · subst heq2
        exact hg e he p hpm hid
    · subst heq
      rcases hmem q hq' with hqm | heq2
      · exact (hg e he q hqm hid.symm).symm
      · rw [heq2]
  · rw [hsess]
    exact ⟨hne, hcr, hic⟩

theorem pinv_remove_participant {st : StoreState} (hwf : WF st) (hp : PInv st)
    {u : User} (hg : goodUser st u) (ck : CacheKey) :
    PInv (st.remove_participant ck u).2.1 := by
  simp only [StoreState.remove_participant]
  by_cases hc : containsE st.entries ck = true
  · rw [session_exists_of_containsE hc]
    obtain ⟨⟨p, dk⟩, hl⟩ := lookupE_of_containsE hc
    simp only [hl]
    by_cases hemp : (leaveSession u p).2 = true
    · simp only [hemp, if_true]
      simp only [StoreState.remove_session_from_queue]
      have hc1 : containsE (modifyE st.entries ck
          (fun s => (leaveSession u s).1)) ck = true := by
        rw [containsE_modifyE]; exact hc
      rw [session_exists_of_containsE hc1]
      have hl1 : lookupE (modifyE st.entries ck
          (fun s => (leaveSession u s).1)) ck =
          some ((leaveSession u p).1, dk) := by
        rw [lookupE_modifyE, hl]; simp
      simp only [removeE, hl1]
      intro e2 he2
      rw [List.mem_filter] at he2
      obtain ⟨e, he', hkey, _, hsess⟩ := mem_modifyE he2.1
      rcases hsess with ⟨hek, _⟩ | ⟨_, hsess⟩
      · exact absurd (hkey.trans hek) (by simpa using he2.2)
      · rw [hsess]
        exact hp e he'
    · simp only [hemp, if_false, Bool.false_eq_true]
      intro e2 he2
      simp only at he2
      obtain ⟨e, he', hkey, _, hsess⟩ := mem_modifyE he2
      rcases hsess with ⟨hek, hsess⟩ | ⟨_, hsess⟩
      · have hle : lookupE st.entries e.key = some (e.session, e.dkey) :=
          lookupE_of_mem_nodup hwf.keysNodup he'
        rw [hek, hl] at hle
        have hsp : p = e.session := by
          simp only [Option.some.injEq, Prod.mk.injEq] at hle
          exact hle.1
        subst hsp
        obtain ⟨hne, hcr, hic⟩ := hp e he'
        rw [hsess]
        rw [Bool.not_eq_true] at hemp
        exact leaveSession_not_emptied hcr hic
          (fun x hx hxid => hg e he' x hx hxid) hemp
      · rw [hsess]
        exact hp e he'
  · rw [Bool.not_eq_true] at hc
    rw [session_exists_of_not_containsE hc]
    exact hp

theorem sessOK_of_eq {s s2 : Session} (hparts : s2.participants = s.participants)
    (hcr : s2.creator = s.creator) (h : SessOK s) : SessOK s2 := by
  obtain ⟨hne, hmem, hic⟩ := h
  refine ⟨by rw [hparts]; exact hne, by rw [hparts, hcr]; exact hmem, ?_⟩
  intro p hp q hq
  rw [hcr, hparts] at hp hq
  exact hic p hp q hq

theorem pinv_insertE {es : List Entry} (hp : ∀ e ∈ es, SessOK e.session)
    (k : CacheKey) {s : Session} (hs : SessOK s) (dk : Nat) :
    ∀ e ∈ insertE es k s dk, SessOK e.session := by
  intro e2 he2
  unfold insertE at he2
  by_cases hc : containsE es k = true
  · rw [if_pos hc] at he2
    obtain ⟨e, he, heq⟩ := List.mem_map.mp he2
    by_cases hk : (e.key == k) = true
    · rw [if_pos hk] at heq
      subst heq
      exact hs
    · rw [if_neg hk] at heq
      subst heq
      exact hp e he
  · rw [if_neg hc] at he2
    rcases List.mem_append.mp he2 with he2 | he2
    · exact hp e2 he2
    · simp only [List.mem_singleton] at he2
      subst he2
      exact hs

theorem pinv_filter {es : List Entry} (hp : ∀ e ∈ es, SessOK e.session)
    (f : Entry → Bool) : ∀ e ∈ es.filter f, SessOK e.session :=
  fun e he => hp e (List.mem_filter.mp he).1

theorem sessOK_creation (c : User) : SessOK ⟨SessionState.PomodoroWaiting,
    msgG1, c, [c], 0, 0, 0⟩ := by
  exact ⟨by simp, by simp, idClean_creation c rfl rfl⟩

theorem pinv_new_pomodoro {st : StoreState} (hp : PInv st) (m : Message)
    (c : User) (t d : Option Nat) (now um : Nat) :
    PInv (st.new_pomodoro m c t d now um).2 := by
  simp only [StoreState.new_pomodoro]
  by_cases hc : containsE st.entries (CacheKey.new m.chat.id m.id) = true
  · rw [session_exists_of_containsE hc]
    exact hp
  · rw [Bool.not_eq_true] at hc
    rw [session_exists_of_not_containsE hc]
    unfold Session.new_pomodoro
    cases m.chat.kind
    all_goals simp only
    · intro e he
      simp only [StoreState.add_session_to_queue, DelayQueue.insertAt] at he
      exact pinv_insertE hp _ ⟨by simp, by simp, idClean_creation c rfl rfl⟩ _ e he
    · intro e he
      simp only [StoreState.add_session_to_queue, DelayQueue.insertAt] at he
      exact pinv_insertE hp _ ⟨by simp, by simp, idClean_creation c rfl rfl⟩ _ e he
    · intro e he
      simp only [StoreState.add_session_to_queue, DelayQueue.insertAt] at he
      exact pinv_insertE hp _ ⟨by simp, by simp, idClean_creation c rfl rfl⟩ _ e he
    · exact hp

theorem pinv_new_break {st : StoreState} (hp : PInv st) (m : Message)
    (c : User) (t d : Option Nat) (now : Nat) :
    PInv (st.new_break m c t d now).2 := by
  simp only [StoreState.new_break]
  by_cases hc : containsE st.entries (CacheKey.new m.chat.id m.id) = true
  · rw [session_exists_of_containsE hc]
    exact hp
  · rw [Bool.not_eq_true] at hc
    rw [session_exists_of_not_containsE hc]
    unfold Session.new_break
    intro e he
    simp only [StoreState.add_session_to_queue, DelayQueue.insertAt] at he
    exact pinv_insertE hp _ ⟨by simp, by simp, idClean_creation c rfl rfl⟩ _ e he

theorem pinv_start_session_now {st : StoreState} (hp : PInv st) (u : User)
    (m : Message) (now : Nat) (notif : Option Message) :
    PInv (st.start_session_now u m now notif).2 := by
  simp only [StoreState.start_session_now]
  by_cases hc : containsE st.entries (CacheKey.new m.chat.id m.id) = true
  · rw [session_exists_of_containsE hc]
    by_cases ho : (st.is_owner (CacheKey.new m.chat.id m.id) u.id) = true
    · obtain ⟨⟨s, dk⟩, hl⟩ := lookupE_of_containsE hc
      simp only [ho, if_true, removeE, hl]
      have hsOK : SessOK s := hp _ (lookupE_mem hl)
      intro e he
      simp only [DelayQueue.removeKey, DelayQueue.insert, DelayQueue.insertAt] at he
      refine pinv_insertE (pinv_filter hp _) _ ?_ _ e he
      exact sessOK_of_eq
        (notify_on_start_parts { s with state := SessionState.PomodoroRunning }
          notif).1
        (notify_on_start_parts { s with state := SessionState.PomodoroRunning }
          notif).2 hsOK
    · simp only [ho, if_false, Bool.false_eq_true]
      exact hp
  · rw [Bool.not_eq_true] at hc
    rw [session_exists_of_not_containsE hc]
    exact hp

theorem pinv_tick {st : StoreState} (hp : PInv st) (qk now : Nat)
    (notif : Option Message) : PInv (st.tick qk now notif) := by
  simp only [StoreState.tick]
  cases hfind : st.expirations.items.find? (fun it => it.qkey == qk) with
  | none => exact hp
  | some it =>
    simp only
    cases hl : lookupE st.entries it.value with
    | none =>
        simp only [removeE, hl]
        exact hp
    | some sd =>
        simp only [removeE, hl, DelayQueue.removeKey]
        obtain ⟨s, dk⟩ := sd
        have hsOK : SessOK s := hp _ (lookupE_mem hl)
        have hfilter : ∀ e ∈ st.entries.filter (fun e => e.key != it.value),
            SessOK e.session := pinv_filter hp _
        by_cases hw : s.is_waiting = true
        · simp only [hw, if_true]
          cases s.message.chat.kind
          all_goals simp only
          · intro e he
            simp only [StoreState.start_session, DelayQueue.insert,
              DelayQueue.insertAt] at he
            refine pinv_insertE hfilter _ ?_ _ e he
            exact sessOK_of_eq rfl rfl hsOK
          · intro e he
            simp only [StoreState.start_session, DelayQueue.insert,
              DelayQueue.insertAt] at he
            refine pinv_insertE hfilter _ ?_ _ e he
            exact sessOK_of_eq (notify_on_start_parts s notif).1
              (notify_on_start_parts s notif).2 hsOK
          · intro e he
            simp only [StoreState.start_session, DelayQueue.insert,
              DelayQueue.insertAt] at he
            refine pinv_insertE hfilter _ ?_ _ e he
            exact sessOK_of_eq (notify_on_start_parts s notif).1
              (notify_on_start_parts s notif).2 hsOK
          · exact hfilter
        · simp only [hw, if_false, Bool.false_eq_true]
          by_cases hr : s.is_running = true
          · simp only [hr, if_true]
            intro e he
            simp only [StoreState.start_break, DelayQueue.insert,
              DelayQueue.insertAt] at he
            refine pinv_insertE hfilter _ ?_ _ e he
            exact sessOK_of_eq (notify_on_end_parts s notif).1
              (notify_on_end_parts s notif).2 hsOK
          · simp only [hr, if_false, Bool.false_eq_true]
            by_cases hb : s.is_awaiting_break = true
            · simp only [hb, if_true]
              intro e he
              simp only [StoreState.start_break, DelayQueue.insert,
                DelayQueue.insertAt] at he
              refine pinv_insertE hfilter _ ?_ _ e he
              exact sessOK_of_eq rfl rfl hsOK
            · simp only [hb, if_false, Bool.false_eq_true]
              exact hfilter

theorem pinv_join_latest_session {st : StoreState} (hp : PInv st) {u : User}
    (hg : goodUser st u) (chat : Chat) :
    PInv (st.join_latest_session chat u).2 := by
  simp only [StoreState.join_latest_session]
  cases st.newest_session_in_chat chat with
  | none => exact hp
  | some ck =>
      simp only
      cases lookupE st.entries ck with
      | none => exact hp
      | some sd =>
          simp only
          by_cases hpart : sd.1.participants.contains u = true
          · simp only [hpart, if_true]
            exact hp
          · simp only [hpart, if_false, Bool.false_eq_true]
            exact pinv_join_modify hp hg ck

theorem pinv_add_participant {st : StoreState} (hp : PInv st) {u : User}
    (hg : goodUser st u) (m : Message) :
    PInv (st.add_participant m u).2 := by
  simp only [StoreState.add_participant]
  by_cases hc : containsE st.entries (CacheKey.new m.chat.id m.id) = true
  · rw [session_exists_of_containsE hc]
    cases lookupE st.entries (CacheKey.new m.chat.id m.id) with
    | none => exact hp
    | some sd =>
        simp only
        by_cases hpart : sd.1.participants.contains u = true
        · simp only [hpart, if_true]
          exact hp
        · simp only [hpart, if_false, Bool.false_eq_true]
          exact pinv_join_modify hp hg _
  · rw [Bool.not_eq_true] at hc
    rw [session_exists_of_not_containsE hc]
    exact hp

theorem pinv_leave_latest_session {st : StoreState} (hwf : WF st) (hp : PInv st)
    {u : User} (hg : goodUser st u) (chat : Chat) :
    PInv (st.leave_latest_session chat u).2.1 := by
  simp only [StoreState.leave_latest_session]
  cases (((st.sessions_in_chat chat).insertionSort byMessageId).reverse).find?
      (fun s => s.participants.contains u) with
  | none => exact hp
  | some entry => exact pinv_remove_participant hwf hp hg _

/-- Every store reachable with id-consistent user identities satisfies
the participants invariant. -/
theorem goodReachable_pinv {st : StoreState} (h : GoodReachable st) :
    PInv st := by
  induction h with
  | init => intro e he; cases he
  | step now op hg hfresh huser ih =>
      have hwf : WF _ := reachable_wf (goodReachable_reachable hg)
      cases op with
      | newPomodoro m c t d um => exact pinv_new_pomodoro ih m c t d now um
      | newBreak m c t d => exact pinv_new_break ih m c t d now
      | startNow u m notif => exact pinv_start_session_now ih u m now notif
      | join c u => exact pinv_join_latest_session ih huser c
      | leave c u => exact pinv_leave_latest_session hwf ih huser c
      | addPart m u => exact pinv_add_participant ih huser m
      | tick qk notif => exact pinv_tick ih qk now notif

/-- **C2** counterexample.  The claim "for every session present in the
store, its participants set is non-empty" is false on the code: `alice`
registers a group Pomodoro, then the same human joins under a changed
profile value `alice2` (same Telegram id 1, different username).  When
`alice2` leaves, `remove_participant` drops every participant whose *id*
equals 1 — removing both stored values — but the whole-value test
`creator == user` fails, so the emptiness branch is never taken: the
session stays registered with an empty participants list. -/
theorem c2_participants_counterexample :
    lookupE ((((stPomG.join_latest_session chatG alice2).2).leave_latest_session
        chatG alice2).2.1).entries (CacheKey.new 10 1) =
      some (⟨SessionState.PomodoroWaiting, msgG1, alice, [], 100, 220, 1500⟩,
        0) := by
  decide

/-- **C2** (corrected).  Under id-consistent user identities (every
reachable store where the same human always presents the same `User`
value — `GoodReachable`): every registered session has a non-empty
participants set containing its creator, and a leave by the sole
remaining participant of the session the scan selects deletes that
session from the entries map and the expirations queue — regardless of
its lifecycle state — and deletes its anchor message, provided the
session is registered under its own message's key (which the start-now
path can break, see C7). -/
theorem c2_participants_amended {st : StoreState} (hg : GoodReachable st) :
    (∀ e ∈ st.entries, e.session.participants ≠ [] ∧
      e.session.creator ∈ e.session.participants) ∧
    (∀ (chat : Chat) (u : User) (sfound : Session) (dk : Nat),
      (((st.sessions_in_chat chat).insertionSort byMessageId).reverse).find?
          (fun s => s.participants.contains u) = some sfound →
      sfound.participants = [u] →
      lookupE st.entries
          (CacheKey.new sfound.message.chat.id sfound.message.id) =
        some (sfound, dk) →
      (st.leave_latest_session chat u).1 =
          Except.ok ("@" ++ (u.username.getD u.firstName) ++
            " left the session.") ∧
      containsE (st.leave_latest_session chat u).2.1.entries
          (CacheKey.new sfound.message.chat.id sfound.message.id) = false ∧
      (∀ it ∈ (st.leave_latest_session chat u).2.1.expirations.items,
          it.value ≠ CacheKey.new sfound.message.chat.id sfound.message.id) ∧
      (st.leave_latest_session chat u).2.2 =
        [Effect.deleteMessage sfound.message.chat.id sfound.message.id]) := by
  have hp : PInv st := goodReachable_pinv hg
  have hwf : WF st := reachable_wf (goodReachable_reachable hg)
  constructor
  · intro e he
    exact ⟨(hp e he).1, (hp e he).2.1⟩
  · intro chat u sfound dk hfind hparts hlk
    have hcru : sfound.creator = u := by
      have hm := (hp _ (lookupE_mem hlk)).2.1
      simp only at hm
      rw [hparts] at hm
      simpa using hm
    have hflag : (leaveSession u sfound).2 = true := by
      unfold leaveSession
      rw [hparts, hcru]
      simp
    simp only [StoreState.leave_latest_session, hfind]
    simp only [StoreState.remove_participant,
      session_exists_of_containsE (containsE_of_lookupE hlk), hlk, hflag,
      if_true]
    have hl1 : lookupE (modifyE st.entries
        (CacheKey.new sfound.message.chat.id sfound.message.id)
        (fun s => (leaveSession u s).1))
        (CacheKey.new sfound.message.chat.id sfound.message.id) =
        some ((leaveSession u sfound).1, dk) := by
      rw [lookupE_modifyE, hlk]
      simp
    have hc1 : containsE ({ st with entries := (modifyE st.entries
        (CacheKey.new sfound.message.chat.id sfound.message.id)
        (fun s => (leaveSession u s).1)) } : StoreState).entries
        (CacheKey.new sfound.message.chat.id sfound.message.id) = true := by
      show containsE (modifyE st.entries
        (CacheKey.new sfound.message.chat.id sfound.message.id)
        (fun s => (leaveSession u s).1))
        (CacheKey.new sfound.message.chat.id sfound.message.id) = true
      rw [containsE_modifyE]
      exact containsE_of_lookupE hlk
    simp only [StoreState.remove_session_from_queue,
      session_exists_of_containsE hc1, removeE, hl1, DelayQueue.removeKey]
    refine ⟨by trivial, containsE_filter_self _ _, ?_, by trivial⟩
    intro it hit hval
    rw [List.mem_filter] at hit
    obtain ⟨s2, hs2⟩ := hwf.back it hit.1
    rw [hval, hlk] at hs2
    simp only [Option.some.injEq, Prod.mk.injEq] at hs2
    exact absurd hs2.2.symm (by simpa using hit.2)

/-- Witness for C2 (amended): `alice`, sole participant of her group
Pomodoro, leaves; the session disappears from the map, its key has no
queue item left, and the anchor message is deleted. -/
theorem c2_participants_amended_witness :
    (stPomG.leave_latest_session chatG alice).1 =
        Except.ok ("@" ++ ((alice.username).getD alice.firstName) ++
          " left the session.") ∧
      containsE (stPomG.leave_latest_session chatG alice).2.1.entries
          (CacheKey.new sessPomG.message.chat.id sessPomG.message.id) = false ∧
      (stPomG.leave_latest_session chatG alice).2.2 =
        [Effect.deleteMessage sessPomG.message.chat.id
          sessPomG.message.id] := by
  have h := (c2_participants_amended
      (GoodReachable.step 100 (Op.newPomodoro msgG1 alice none none 3)
        GoodReachable.init trivial trivial)).2 chatG alice sessPomG 0
    (show (((stPomG.sessions_in_chat chatG).insertionSort
        byMessageId).reverse).find? (fun s => s.participants.contains alice) =
      some sessPomG from by decide)
    (by decide)
    (show lookupE stPomG.entries
        (CacheKey.new sessPomG.message.chat.id sessPomG.message.id) =
      some (sessPomG, 0) from by decide)
  exact ⟨h.1, h.2.1, h.2.2.2⟩

/-! ### Transition safety (C3) -/

theorem not_containsE_of_lookupE_none {es : List Entry} {k : CacheKey}
    (h : lookupE es k = none) : containsE es k = false := by
  rw [← lookupE_isSome, h]
  rfl

theorem lookupE_snoc (es : List Entry) (e2 : Entry) (k : CacheKey) :
    lookupE (es ++ [e2]) k =
      match lookupE es k with
      | some r => some r
      | none => if e2.key = k then some (e2.session, e2.dkey) else none := by
  cases hl : lookupE es k with
  | some r => exact lookupE_append_left hl
  | none =>
      rw [lookupE_append_right (not_containsE_of_lookupE_none hl), lookupE_cons]
      simp [lookupE]

theorem lookupE_filter_key (es : List Entry) (ck k : CacheKey) :
    lookupE (es.filter (fun e => e.key != ck)) k =
      if k = ck then none else lookupE es k := by
  by_cases h : k = ck
  · subst h
    rw [if_pos rfl]
    exact lookupE_none_of_not_containsE (containsE_filter_self ..)
  · rw [if_neg h, lookupE_filter_ne h]

theorem state_eq_of_some_eq {s s2 : Session} {dk dk2 : Nat}
    (h : (some (s, dk) : Option (Session × Nat)) = some (s2, dk2)) :
    s2.state = s.state := by
  simp only [Option.some.injEq, Prod.mk.injEq] at h
  rw [h.1]

theorem lookupE_replace (es : List Entry) (k2 : CacheKey) (s2 : Session)
    (dk2 : Nat) (k : CacheKey) :
    lookupE (es.map (fun e => if e.key == k2 then ⟨k2, s2, dk2⟩ else e)) k =
      if k = k2 then (if containsE es k2 then some (s2, dk2) else none)
      else lookupE es k := by
  induction es with
  | nil =>
      simp only [List.map_nil]
      by_cases h : k = k2 <;> simp [h, lookupE, containsE]
  | cons e es ih =>
      simp only [List.map_cons]
      by_cases he2 : e.key = k2
      · rw [if_pos (show (e.key == k2) = true by simp [he2]), lookupE_cons]
        by_cases hk : k = k2
        · rw [if_pos (show (⟨k2, s2, dk2⟩ : Entry).key = k from hk.symm),
            if_pos hk]
          simp [containsE_cons, he2]
        · rw [if_neg (show ¬(⟨k2, s2, dk2⟩ : Entry).key = k from
            fun hh => hk hh.symm), ih, if_neg hk, if_neg hk, lookupE_cons,
            if_neg (show ¬e.key = k from fun hh => hk (hh.symm.trans he2))]
      · rw [if_neg (show ¬(e.key == k2) = true by simp [he2]), lookupE_cons, ih]
        by_cases hek : e.key = k
        · rw [if_pos hek]
          have hk : ¬k = k2 := fun hh => he2 (hek.trans hh)
          rw [if_neg hk, lookupE_cons, if_pos hek]
        · rw [if_neg hek]
          by_cases hk : k = k2
          · rw [if_pos hk, if_pos hk, containsE_cons]
            have he2b : (e.key == k2) = false := by simp [he2]
            rw [he2b, Bool.false_or]
          · rw [if_neg hk, if_neg hk, lookupE_cons, if_neg hek]

theorem lookupE_insertE (es : List Entry) (k2 : CacheKey) (s2 : Session)
    (dk2 : Nat) (k : CacheKey) :
    lookupE (insertE es k2 s2 dk2) k =
      if k = k2 then some (s2, dk2) else lookupE es k := by
  unfold insertE
  by_cases hc : containsE es k2 = true
  · rw [if_pos hc, lookupE_replace, hc]
    simp
  · rw [Bool.not_eq_true] at hc
    rw [if_neg (by simp [hc]), lookupE_snoc]
    by_cases hk : k = k2
    · rw [hk, lookupE_none_of_not_containsE hc]
    · rw [if_neg hk]
      cases hle : lookupE es k with
      | some r => rfl
      | none =>
          simp only
          rw [if_neg (show ¬(⟨k2, s2, dk2⟩ : Entry).key = k from
            fun hh => hk hh.symm)]

theorem lookupE_modifyE_some {es : List Entry} {k v : CacheKey}
    {f : Session → Session} {s : Session} {dk : Nat}
    (hl : lookupE es v = some (s, dk)) :
    lookupE (modifyE es k f) v = some (if v = k then f s else s, dk) := by
  rw [lookupE_modifyE, hl]
  rfl

theorem lookupE_modifyE_none {es : List Entry} {k v : CacheKey}
    {f : Session → Session} (hl : lookupE es v = none) :
    lookupE (modifyE es k f) v = none := by
  rw [lookupE_modifyE, hl]
  rfl

/-- **C3** counterexample.  A session created directly as a break (state
`BreakWaiting`) is moved to `PomodoroRunning` — a transition outside the
claimed set — when its creator replies `/start` to its anchor message:
`start_session_now` never inspects the current state. -/
theorem c3_transitions_counterexample :
    lookupE ((StoreState.initial.new_break msgP5 alice none none 100).2).entries
        (CacheKey.new 11 5) =
      some (⟨SessionState.BreakWaiting, msgP5, alice, [alice], 100, 100, 300⟩,
        0) ∧
    lookupE (((StoreState.initial.new_break msgP5 alice none none
        100).2).start_session_now alice msgP5 120 none).2.entries
        (CacheKey.new 11 5) =
      some (⟨SessionState.PomodoroRunning, msgP5, alice, [alice], 100, 100,
        300⟩, 1) := by
  constructor <;> decide

/-- **C3** (corrected).  Transition safety over every operation: when a
key holds a session before and after an operation, the state either
stays equal, or the operation is `start_session_now` (which forces
`PomodoroRunning` from *any* current state — the deviation from the
claim), or it is a scheduler tick performing one of
`PomodoroWaiting → PomodoroRunning`, `PomodoroRunning → BreakRunning`,
`BreakWaiting → BreakRunning`.  A key freshly inserted by an operation
holds `PomodoroWaiting` (new_pomodoro), `BreakWaiting` (new_break), or a
tick re-registration in `PomodoroRunning`/`BreakRunning`.  No other state
change is reachable. -/
theorem c3_transitions_amended {st : StoreState} (_hre : Reachable st)
    (now : Nat) (op : Op) (hfresh : op.freshOk st) :
    (∀ k s dk s2 dk2, lookupE st.entries k = some (s, dk) →
      lookupE ((st.apply now op).entries) k = some (s2, dk2) →
      s2.state = s.state ∨
      (∃ u m notif, op = Op.startNow u m notif ∧
        s2.state = SessionState.PomodoroRunning) ∨
      (∃ qk notif, op = Op.tick qk notif ∧
        ((s.state = SessionState.PomodoroWaiting ∧
            s2.state = SessionState.PomodoroRunning) ∨
          (s.state = SessionState.PomodoroRunning ∧
            s2.state = SessionState.BreakRunning) ∨
          (s.state = SessionState.BreakWaiting ∧
            s2.state = SessionState.BreakRunning)))) ∧
    (∀ k s2 dk2, lookupE st.entries k = none →
      lookupE ((st.apply now op).entries) k = some (s2, dk2) →
      (∃ m c t d um, op = Op.newPomodoro m c t d um ∧
        s2.state = SessionState.PomodoroWaiting) ∨
      (∃ m c t d, op = Op.newBreak m c t d ∧
        s2.state = SessionState.BreakWaiting) ∨
      (∃ qk notif, op = Op.tick qk notif ∧
        (s2.state = SessionState.PomodoroRunning ∨
          s2.state = SessionState.BreakRunning))) := by
  have hsame : ∀ (es : List Entry) (k : CacheKey) s dk s2 dk2,
      lookupE es k = some (s, dk) → lookupE es k = some (s2, dk2) →
      s2.state = s.state := by
    intro es k s dk s2 dk2 h1 h2
    rw [h1] at h2
    exact state_eq_of_some_eq h2
  cases op with
  | newPomodoro m c t d um =>
      constructor
      · intro k s dk s2 dk2 hpre hpost
        simp only [StoreState.apply, StoreState.new_pomodoro] at hpost
        by_cases hc : containsE st.entries (CacheKey.new m.chat.id m.id) = true
        · simp only [session_exists_of_containsE hc] at hpost
          exact Or.inl (hsame _ _ _ _ _ _ hpre hpost)
        · rw [Bool.not_eq_true] at hc
          simp only [session_exists_of_not_containsE hc,
            Session.new_pomodoro] at hpost
          have hinsert : ∀ s0 : Session,
              lookupE (st.add_session_to_queue s0).entries k = some (s2, dk2) →
              containsE st.entries
                (CacheKey.new s0.message.chat.id s0.message.id) = false →
              s2.state = s.state := by
            intro s0 h2 hc0
            simp only [StoreState.add_session_to_queue,
              DelayQueue.insertAt] at h2
            rw [lookupE_insertE] at h2
            split at h2
            · rename_i hck
              rw [hck] at hpre
              rw [lookupE_none_of_not_containsE hc0] at hpre
              cases hpre
            · exact hsame _ _ _ _ _ _ hpre h2
          cases hkind : m.chat.kind <;> rw [hkind] at hpost <;>
            simp only at hpost
          · exact Or.inl (hinsert _ hpost hc)
          · exact Or.inl (hinsert _ hpost hc)
          · exact Or.inl (hinsert _ hpost hc)
          · exact Or.inl (hsame _ _ _ _ _ _ hpre hpost)
      · intro k s2 dk2 hpre hpost
        simp only [StoreState.apply, StoreState.new_pomodoro] at hpost
        by_cases hc : containsE st.entries (CacheKey.new m.chat.id m.id) = true
        · simp only [session_exists_of_containsE hc] at hpost
          rw [hpre] at hpost
          cases hpost
        · rw [Bool.not_eq_true] at hc
          simp only [session_exists_of_not_containsE hc,
            Session.new_pomodoro] at hpost
          have hinsert : ∀ s0 : Session,
              lookupE (st.add_session_to_queue s0).entries k = some (s2, dk2) →
              s2 = s0 := by
            intro s0 h2
            simp only [StoreState.add_session_to_queue,
              DelayQueue.insertAt] at h2
            rw [lookupE_insertE] at h2
            split at h2
            · simp only [Option.some.injEq, Prod.mk.injEq] at h2
              exact h2.1.symm
            · rw [hpre] at h2
              cases h2
          cases hkind : m.chat.kind <;> rw [hkind] at hpost <;>
            simp only at hpost
          · refine Or.inl ⟨m, c, t, d, um, rfl, ?_⟩
            rw [hinsert _ hpost]
          · refine Or.inl ⟨m, c, t, d, um, rfl, ?_⟩
            rw [hinsert _ hpost]
          · refine Or.inl ⟨m, c, t, d, um, rfl, ?_⟩
            rw [hinsert _ hpost]
          · rw [hpre] at hpost
            cases hpost
  | newBreak m c t d =>
      constructor
      · intro k s dk s2 dk2 hpre hpost
        simp only [StoreState.apply, StoreState.new_break] at hpost
        by_cases hc : containsE st.entries (CacheKey.new m.chat.id m.id) = true
        · simp only [session_exists_of_containsE hc] at hpost
          exact Or.inl (hsame _ _ _ _ _ _ hpre hpost)
        · rw [Bool.not_eq_true] at hc
          simp only [session_exists_of_not_containsE hc, Session.new_break,
            StoreState.add_session_to_queue, DelayQueue.insertAt] at hpost
          rw [lookupE_insertE] at hpost
          split at hpost
          · rename_i hck
            rw [hck] at hpre
            rw [lookupE_none_of_not_containsE hc] at hpre
            cases hpre
          · exact Or.inl (hsame _ _ _ _ _ _ hpre hpost)
      · intro k s2 dk2 hpre hpost
        simp only [StoreState.apply, StoreState.new_break] at hpost
        by_cases hc : containsE st.entries (CacheKey.new m.chat.id m.id) = true
        · simp only [session_exists_of_containsE hc] at hpost
          rw [hpre] at hpost
          cases hpost
        · rw [Bool.not_eq_true] at hc
          simp only [session_exists_of_not_containsE hc, Session.new_break,
            StoreState.add_session_to_queue, DelayQueue.insertAt] at hpost
          rw [lookupE_insertE] at hpost
          split at hpost
          · refine Or.inr (Or.inl ⟨m, c, t, d, rfl, ?_⟩)
            simp only [Option.some.injEq, Prod.mk.injEq] at hpost
            rw [← hpost.1]
          · rw [hpre] at hpost
            cases hpost
  | startNow u m notif =>
      constructor
      · intro k s dk s2 dk2 hpre hpost
        simp only [StoreState.apply, StoreState.start_session_now] at hpost
        by_cases hc : containsE st.entries (CacheKey.new m.chat.id m.id) = true
        · simp only [session_exists_of_containsE hc] at hpost
          by_cases ho : (st.is_owner (CacheKey.new m.chat.id m.id) u.id) = true
          · obtain ⟨⟨sp, dkp⟩, hl⟩ := lookupE_of_containsE hc
            simp only [ho, if_true, removeE, hl, DelayQueue.removeKey,
              DelayQueue.insert, DelayQueue.insertAt] at hpost
            rw [lookupE_insertE, lookupE_filter_key] at hpost
            split at hpost
            · refine Or.inr (Or.inl ⟨u, m, notif, rfl, ?_⟩)
              simp only [Option.some.injEq, Prod.mk.injEq] at hpost
              rw [← hpost.1, notify_on_start_state]
            · exact Or.inl (hsame _ _ _ _ _ _ hpre hpost)
          · simp only [ho, if_false, Bool.false_eq_true] at hpost
            exact Or.inl (hsame _ _ _ _ _ _ hpre hpost)
        · rw [Bool.not_eq_true] at hc
          simp only [session_exists_of_not_containsE hc] at hpost
          exact Or.inl (hsame _ _ _ _ _ _ hpre hpost)
      · intro k s2 dk2 hpre hpost
        simp only [StoreState.apply, StoreState.start_session_now] at hpost
        by_cases hc : containsE st.entries (CacheKey.new m.chat.id m.id) = true
        · simp only [session_exists_of_containsE hc] at hpost
          by_cases ho : (st.is_owner (CacheKey.new m.chat.id m.id) u.id) = true
          · obtain ⟨⟨sp, dkp⟩, hl⟩ := lookupE_of_containsE hc
            simp only [ho, if_true, removeE, hl, DelayQueue.removeKey,
              DelayQueue.insert, DelayQueue.insertAt] at hpost
            rw [lookupE_insertE, lookupE_filter_key] at hpost
            split at hpost
            · rename_i hck
              rw [hck] at hpre
              rw [hl] at hpre
              cases hpre
            · rw [hpre] at hpost
              cases hpost
          · simp only [ho, if_false, Bool.false_eq_true] at hpost
            rw [hpre] at hpost
            cases hpost
        · rw [Bool.not_eq_true] at hc
          simp only [session_exists_of_not_containsE hc] at hpost
          rw [hpre] at hpost
          cases hpost
  | join c u =>
      constructor
      · intro k s dk s2 dk2 hpre hpost
        simp only [StoreState.apply, StoreState.join_latest_session] at hpost
        cases hnw : st.newest_session_in_chat c with
        | none =>
            rw [hnw] at hpost
            exact Or.inl (hsame _ _ _ _ _ _ hpre hpost)
        | some ck =>
            rw [hnw] at hpost
            simp only at hpost
            cases hl : lookupE st.entries ck with
            | none =>
                rw [hl] at hpost
                exact Or.inl (hsame _ _ _ _ _ _ hpre hpost)
            | some sd =>
                rw [hl] at hpost
                simp only at hpost
                by_cases hp2 : sd.1.participants.contains u = true
                · simp only [hp2, if_true] at hpost
                  exact Or.inl (hsame _ _ _ _ _ _ hpre hpost)
                · simp only [hp2, if_false, Bool.false_eq_true] at hpost
                  rw [lookupE_modifyE_some hpre] at hpost
                  simp only [Option.some.injEq, Prod.mk.injEq] at hpost
                  refine Or.inl ?_
                  rw [← hpost.1]
                  by_cases hck : k = ck <;> simp [hck]
      · intro k s2 dk2 hpre hpost
        simp only [StoreState.apply, StoreState.join_latest_session] at hpost
        cases hnw : st.newest_session_in_chat c with
        | none =>
            rw [hnw] at hpost
            rw [hpre] at hpost
            cases hpost
        | some ck =>
            rw [hnw] at hpost
            simp only at hpost
            cases hl : lookupE st.entries ck with
            | none =>
                rw [hl] at hpost
                rw [hpre] at hpost
                cases hpost
            | some sd =>
                rw [hl] at hpost
                simp only at hpost
                by_cases hp2 : sd.1.participants.contains u = true
                · simp only [hp2, if_true] at hpost
                  rw [hpre] at hpost
                  cases hpost
                · simp only [hp2, if_false, Bool.false_eq_true] at hpost
                  rw [lookupE_modifyE_none hpre] at hpost
                  cases hpost
  | addPart m u =>
      constructor
      · intro k s dk s2 dk2 hpre hpost
        simp only [StoreState.apply, StoreState.add_participant] at hpost
        by_cases hc : containsE st.entries (CacheKey.new m.chat.id m.id) = true
        · simp only [session_exists_of_containsE hc] at hpost
          cases hl : lookupE st.entries (CacheKey.new m.chat.id m.id) with
          | none =>
              rw [hl] at hpost
              exact Or.inl (hsame _ _ _ _ _ _ hpre hpost)
          | some sd =>
              rw [hl] at hpost
              simp only at hpost
              by_cases hp2 : sd.1.participants.contains u = true
              · simp only [hp2, if_true] at hpost
                exact Or.inl (hsame _ _ _ _ _ _ hpre hpost)
              · simp only [hp2, if_false, Bool.false_eq_true] at hpost
                rw [lookupE_modifyE_some hpre] at hpost
                simp only [Option.some.injEq, Prod.mk.injEq] at hpost
                refine Or.inl ?_
                rw [← hpost.1]
                by_cases hck : k = CacheKey.new m.chat.id m.id <;> simp [hck]
        · rw [Bool.not_eq_true] at hc
          simp only [session_exists_of_not_containsE hc] at hpost
          exact Or.inl (hsame _ _ _ _ _ _ hpre hpost)
      · intro k s2 dk2 hpre hpost
        simp only [StoreState.apply, StoreState.add_participant] at hpost
        by_cases hc : containsE st.entries (CacheKey.new m.chat.id m.id) = true
        · simp only [session_exists_of_containsE hc] at hpost
          cases hl : lookupE st.entries (CacheKey.new m.chat.id m.id) with
          | none =>
              rw [hl] at hpost
              rw [hpre] at hpost
              cases hpost
          | some sd =>
              rw [hl] at hpost
              simp only at hpost
              by_cases hp2 : sd.1.participants.contains u = true
              · simp only [hp2, if_true] at hpost
                rw [hpre] at hpost
                cases hpost
              · simp only [hp2, if_false, Bool.false_eq_true] at hpost
                rw [lookupE_modifyE_none hpre] at hpost
                cases hpost
        · rw [Bool.not_eq_true] at hc
          simp only [session_exists_of_not_containsE hc] at hpost
          rw [hpre] at hpost
          cases hpost
  | leave c u =>
      constructor
      · intro k s dk s2 dk2 hpre hpost
        simp only [StoreState.apply, StoreState.leave_latest_session] at hpost
        cases hf : (((st.sessions_in_chat c).insertionSort
            byMessageId).reverse).find? (fun x => x.participants.contains u) with
        | none =>
            rw [hf] at hpost
            exact Or.inl (hsame _ _ _ _ _ _ hpre hpost)
        | some sf =>
            rw [hf] at hpost
            simp only [StoreState.remove_participant] at hpost
            by_cases hc : containsE st.entries
                (CacheKey.new sf.message.chat.id sf.message.id) = true
            · simp only [session_exists_of_containsE hc] at hpost
              obtain ⟨⟨sp, dkp⟩, hl⟩ := lookupE_of_containsE hc
              rw [hl] at hpost
              simp only at hpost
              by_cases hemp : (leaveSession u sp).2 = true
              · simp only [hemp, if_true,
                  StoreState.remove_session_from_queue] at hpost
                have hc1 : containsE ({ st with entries := (modifyE st.entries
                    (CacheKey.new sf.message.chat.id sf.message.id)
                    (fun x => (leaveSession u x).1)) } : StoreState).entries
                    (CacheKey.new sf.message.chat.id sf.message.id) = true := by
                  show containsE (modifyE st.entries
                    (CacheKey.new sf.message.chat.id sf.message.id)
                    (fun x => (leaveSession u x).1))
                    (CacheKey.new sf.message.chat.id sf.message.id) = true
                  rw [containsE_modifyE]
                  exact hc
                have hl1 : lookupE (modifyE st.entries
                    (CacheKey.new sf.message.chat.id sf.message.id)
                    (fun x => (leaveSession u x).1))
                    (CacheKey.new sf.message.chat.id sf.message.id) =
                    some ((leaveSession u sp).1, dkp) := by
                  rw [lookupE_modifyE_some hl, if_pos rfl]
                simp only [session_exists_of_containsE hc1, removeE, hl1,
                  DelayQueue.removeKey] at hpost
                rw [lookupE_filter_key] at hpost
                split at hpost
                · cases hpost
                · rename_i hck
                  rw [lookupE_modifyE_some hpre] at hpost
                  simp only [Option.some.injEq, Prod.mk.injEq] at hpost
                  refine Or.inl ?_
                  rw [← hpost.1, if_neg hck]
              · simp only [hemp, if_false, Bool.false_eq_true] at hpost
                rw [lookupE_modifyE_some hpre] at hpost
                simp only [Option.some.injEq, Prod.mk.injEq] at hpost
                refine Or.inl ?_
                rw [← hpost.1]
                by_cases hck : k = CacheKey.new sf.message.chat.id sf.message.id
                · rw [if_pos hck, (leaveSession_state_message u s).1]
                · rw [if_neg hck]
            · rw [Bool.not_eq_true] at hc
              simp only [session_exists_of_not_containsE hc] at hpost
              exact Or.inl (hsame _ _ _ _ _ _ hpre hpost)
      · intro k s2 dk2 hpre hpost
        simp only [StoreState.apply, StoreState.leave_latest_session] at hpost
        cases hf : (((st.sessions_in_chat c).insertionSort
            byMessageId).reverse).find? (fun x => x.participants.contains u) with
        | none =>
            rw [hf] at hpost
            rw [hpre] at hpost
            cases hpost
        | some sf =>
            rw [hf] at hpost
            simp only [StoreState.remove_participant] at hpost
            by_cases hc : containsE st.entries
                (CacheKey.new sf.message.chat.id sf.message.id) = true
            · simp only [session_exists_of_containsE hc] at hpost
              obtain ⟨⟨sp, dkp⟩, hl⟩ := lookupE_of_containsE hc
              rw [hl] at hpost
              simp only at hpost
              by_cases hemp : (leaveSession u sp).2 = true
              · simp only [hemp, if_true,
                  StoreState.remove_session_from_queue] at hpost
                have hc1 : containsE ({ st with entries := (modifyE st.entries
                    (CacheKey.new sf.message.chat.id sf.message.id)
                    (fun x => (leaveSession u x).1)) } : StoreState).entries
                    (CacheKey.new sf.message.chat.id sf.message.id) = true := by
                  show containsE (modifyE st.entries
                    (CacheKey.new sf.message.chat.id sf.message.id)
                    (fun x => (leaveSession u x).1))
                    (CacheKey.new sf.message.chat.id sf.message.id) = true
                  rw [containsE_modifyE]
                  exact hc
                have hl1 : lookupE (modifyE st.entries
                    (CacheKey.new sf.message.chat.id sf.message.id)
                    (fun x => (leaveSession u x).1))
                    (CacheKey.new sf.message.chat.id sf.message.id) =
                    some ((leaveSession u sp).1, dkp) := by
                  rw [lookupE_modifyE_some hl, if_pos rfl]
                simp only [session_exists_of_containsE hc1, removeE, hl1,
                  DelayQueue.removeKey] at hpost
                rw [lookupE_filter_key] at hpost
                split at hpost
                · cases hpost
                · rw [lookupE_modifyE_none hpre] at hpost
                  cases hpost
              · simp only [hemp, if_false, Bool.false_eq_true] at hpost
                rw [lookupE_modifyE_none hpre] at hpost
                cases hpost
            · rw [Bool.not_eq_true] at hc
              simp only [session_exists_of_not_containsE hc] at hpost
              rw [hpre] at hpost
              cases hpost
  | tick qk notif =>
      constructor
      · intro k s dk s2 dk2 hpre hpost
        simp only [StoreState.apply, StoreState.tick] at hpost
        cases hfind : st.expirations.items.find? (fun x => x.qkey == qk) with
        | none =>
            rw [hfind] at hpost
            exact Or.inl (hsame _ _ _ _ _ _ hpre hpost)
        | some it =>
            rw [hfind] at hpost
            simp only [removeE, DelayQueue.removeKey] at hpost
            cases hl : lookupE st.entries it.value with
            | none =>
                rw [hl] at hpost
                exact Or.inl (hsame _ _ _ _ _ _ hpre hpost)
            | some sd =>
                rw [hl] at hpost
                obtain ⟨sp, dkp⟩ := sd
                simp only [Op.freshOk, hfind, hl] at hfresh
                simp only at hpost
                have hterminal : lookupE (st.entries.filter
                    (fun e => e.key != it.value)) k = some (s2, dk2) →
                    s2.state = s.state := by
                  intro h2
                  rw [lookupE_filter_key] at h2
                  split at h2
                  · cases h2
                  · exact hsame _ _ _ _ _ _ hpre h2
                have hregister : ∀ (sNew : Session),
                    tickTransition sp notif = some sNew →
                    lookupE (insertE (st.entries.filter
                        (fun e => e.key != it.value))
                      (CacheKey.new sNew.message.chat.id sNew.message.id)
                      sNew st.expirations.next) k = some (s2, dk2) →
                    (s2 = sNew ∧ s = sp) ∨ s2.state = s.state := by
                  intro sNew htrans h2
                  rw [htrans] at hfresh
                  simp only at hfresh
                  rw [lookupE_insertE, lookupE_filter_key] at h2
                  by_cases hck : k = CacheKey.new sNew.message.chat.id
                      sNew.message.id
                  · rw [if_pos hck] at h2
                    have hkv : k = it.value :=
                      hfresh _ (lookupE_mem hpre) hck
                    have hps : s = sp := by
                      rw [hkv, hl] at hpre
                      simp only [Option.some.injEq, Prod.mk.injEq] at hpre
                      exact hpre.1.symm
                    simp only [Option.some.injEq, Prod.mk.injEq] at h2
                    exact Or.inl ⟨h2.1.symm, hps⟩
                  · rw [if_neg hck] at h2
                    split at h2
                    · cases h2
                    · exact Or.inr (hsame _ _ _ _ _ _ hpre h2)
                by_cases hw : sp.is_waiting = true
                · simp only [hw, if_true] at hpost
                  have hsw : sp.state = SessionState.PomodoroWaiting := by
                    simpa [Session.is_waiting] using hw
                  cases hkind : sp.message.chat.kind <;> rw [hkind] at hpost
                  · simp only [StoreState.start_session, DelayQueue.insert,
                      DelayQueue.insertAt] at hpost
                    rcases hregister
                        { sp with state := SessionState.PomodoroRunning }
                        (by simp [tickTransition, hw, hkind]) hpost with
                      ⟨hs2, hs⟩ | hsame2
                    · exact Or.inr (Or.inr ⟨qk, notif, rfl, Or.inl
                        ⟨by rw [hs]; exact hsw, by rw [hs2]⟩⟩)
                    · exact Or.inl hsame2
                  · simp only [StoreState.start_session, DelayQueue.insert,
                      DelayQueue.insertAt] at hpost
                    rcases hregister
                        { sp.notify_participants_on_start notif with
                          state := SessionState.PomodoroRunning }
                        (by simp [tickTransition, hw, hkind]) hpost with
                      ⟨hs2, hs⟩ | hsame2
                    · exact Or.inr (Or.inr ⟨qk, notif, rfl, Or.inl
                        ⟨by rw [hs]; exact hsw, by rw [hs2]⟩⟩)
                    · exact Or.inl hsame2
                  · simp only [StoreState.start_session, DelayQueue.insert,
                      DelayQueue.insertAt] at hpost
                    rcases hregister
                        { sp.notify_participants_on_start notif with
                          state := SessionState.PomodoroRunning }
                        (by simp [tickTransition, hw, hkind]) hpost with
                      ⟨hs2, hs⟩ | hsame2
                    · exact Or.inr (Or.inr ⟨qk, notif, rfl, Or.inl
                        ⟨by rw [hs]; exact hsw, by rw [hs2]⟩⟩)
                    · exact Or.inl hsame2
                  · exact Or.inl (hterminal hpost)
                · simp only [hw, if_false, Bool.false_eq_true] at hpost
                  by_cases hr : sp.is_running = true
                  · simp only [hr, if_true] at hpost
                    have hsr : sp.state = SessionState.PomodoroRunning := by
                      simpa [Session.is_running] using hr
                    simp only [StoreState.start_break, DelayQueue.insert,
                      DelayQueue.insertAt] at hpost
                    rcases hregister
                        ((sp.notify_participants_on_end notif).convert_to_break)
                        (by simp [tickTransition, hw, hr]) hpost with
                      ⟨hs2, hs⟩ | hsame2
                    · exact Or.inr (Or.inr ⟨qk, notif, rfl, Or.inr (Or.inl
                        ⟨by rw [hs]; exact hsr, by rw [hs2]; rfl⟩)⟩)
                    · exact Or.inl hsame2
                  · simp only [hr, if_false, Bool.false_eq_true] at hpost
                    by_cases hb : sp.is_awaiting_break = true
                    · simp only [hb, if_true] at hpost
                      have hsb : sp.state = SessionState.BreakWaiting := by
                        simpa [Session.is_awaiting_break] using hb
                      simp only [StoreState.start_break, DelayQueue.insert,
                        DelayQueue.insertAt] at hpost
                      rcases hregister sp.convert_to_break
                          (by simp [tickTransition, hw, hr, hb]) hpost with
                        ⟨hs2, hs⟩ | hsame2
                      · exact Or.inr (Or.inr ⟨qk, notif, rfl, Or.inr (Or.inr
                          ⟨by rw [hs]; exact hsb, by rw [hs2]; rfl⟩)⟩)
                      · exact Or.inl hsame2
                    · simp only [hb, if_false, Bool.false_eq_true] at hpost
                      exact Or.inl (hterminal hpost)
      · intro k s2 dk2 hpre hpost
        simp only [StoreState.apply, StoreState.tick] at hpost
        cases hfind : st.expirations.items.find? (fun x => x.qkey == qk) with
        | none =>
            rw [hfind] at hpost
            rw [hpre] at hpost
            cases hpost
        | some it =>
            rw [hfind] at hpost
            simp only [removeE, DelayQueue.removeKey] at hpost
            cases hl : lookupE st.entries it.value with
            | none =>
                rw [hl] at hpost
                rw [hpre] at hpost
                cases hpost
            | some sd =>
                rw [hl] at hpost
                obtain ⟨sp, dkp⟩ := sd
                simp only at hpost
                have hkv : ¬k = it.value := by
                  intro hkv
                  rw [hkv, hl] at hpre
                  cases hpre
                have hterminal : lookupE (st.entries.filter
                    (fun e => e.key != it.value)) k = some (s2, dk2) →
                    False := by
                  intro h2
                  rw [lookupE_filter_key, if_neg hkv, hpre] at h2
                  cases h2
                have hregister : ∀ (sNew : Session),
                    lookupE (insertE (st.entries.filter
                        (fun e => e.key != it.value))
                      (CacheKey.new sNew.message.chat.id sNew.message.id)
                      sNew st.expirations.next) k = some (s2, dk2) →
                    s2 = sNew := by
                  intro sNew h2
                  rw [lookupE_insertE, lookupE_filter_key] at h2
                  by_cases hck : k = CacheKey.new sNew.message.chat.id
                      sNew.message.id
                  · rw [if_pos hck] at h2
                    simp only [Option.some.injEq, Prod.mk.injEq] at h2
                    exact h2.1.symm
                  · rw [if_neg hck, if_neg hkv, hpre] at h2
                    cases h2
                by_cases hw : sp.is_waiting = true
                · simp only [hw, if_true] at hpost
                  cases hkind : sp.message.chat.kind <;> rw [hkind] at hpost
                  · simp only [StoreState.start_session, DelayQueue.insert,
                      DelayQueue.insertAt] at hpost
                    refine Or.inr (Or.inr ⟨qk, notif, rfl, Or.inl ?_⟩)
                    rw [hregister
                      { sp with state := SessionState.PomodoroRunning } hpost]
                  · simp only [StoreState.start_session, DelayQueue.insert,
                      DelayQueue.insertAt] at hpost
                    refine Or.inr (Or.inr ⟨qk, notif, rfl, Or.inl ?_⟩)
                    rw [hregister
                      { sp.notify_participants_on_start notif with
                        state := SessionState.PomodoroRunning } hpost]
                  · simp only [StoreState.start_session, DelayQueue.insert,
                      DelayQueue.insertAt] at hpost
                    refine Or.inr (Or.inr ⟨qk, notif, rfl, Or.inl ?_⟩)
                    rw [hregister
                      { sp.notify_participants_on_start notif with
                        state := SessionState.PomodoroRunning } hpost]
                  · exact absurd hpost hterminal
                · simp only [hw, if_false, Bool.false_eq_true] at hpost
                  by_cases hr : sp.is_running = true
                  · simp only [hr, if_true] at hpost
                    simp only [StoreState.start_break, DelayQueue.insert,
                      DelayQueue.insertAt] at hpost
                    refine Or.inr (Or.inr ⟨qk, notif, rfl, Or.inr ?_⟩)
                    rw [hregister
                      ((sp.notify_participants_on_end notif).convert_to_break)
                      hpost]
                    rfl
                  · simp only [hr, if_false, Bool.false_eq_true] at hpost
                    by_cases hb : sp.is_awaiting_break = true
                    · simp only [hb, if_true] at hpost
                      simp only [StoreState.start_break, DelayQueue.insert,
                        DelayQueue.insertAt] at hpost
                      refine Or.inr (Or.inr ⟨qk, notif, rfl, Or.inr ?_⟩)
                      rw [hregister sp.convert_to_break hpost]
                      rfl
                    · simp only [hb, if_false, Bool.false_eq_true] at hpost
                      exact absurd hpost hterminal

/-- Concrete instance of the transition-safety theorem: registering a
Pomodoro in the empty store inserts a session in `PomodoroWaiting`. -/
theorem c3_transitions_amended_witness :
    (Op.newPomodoro msgG1 alice none none 3).freshOk StoreState.initial ∧
    ((∃ m c t d um, Op.newPomodoro msgG1 alice none none 3 =
          Op.newPomodoro m c t d um ∧
        sessPomG.state = SessionState.PomodoroWaiting) ∨
      (∃ m c t d, Op.newPomodoro msgG1 alice none none 3 =
          Op.newBreak m c t d ∧
        sessPomG.state = SessionState.BreakWaiting) ∨
      (∃ qk notif, Op.newPomodoro msgG1 alice none none 3 =
          Op.tick qk notif ∧
        (sessPomG.state = SessionState.PomodoroRunning ∨
          sessPomG.state = SessionState.BreakRunning))) :=
  ⟨by decide,
    (c3_transitions_amended Reachable.init 100
        (Op.newPomodoro msgG1 alice none none 3) (by decide)).2
      (CacheKey.new 10 1) sessPomG 0 (by decide)
      (show lookupE ((StoreState.initial.apply 100
          (Op.newPomodoro msgG1 alice none none 3)).entries)
          (CacheKey.new 10 1) = some (sessPomG, 0) from by decide)⟩

theorem mem_of_getLast_eq_some {α : Type _} :
    ∀ {m : List α} {a : α}, m.getLast? = some a → a ∈ m := by
  intro m
  induction m with
  | nil => intro a h; simp at h
  | cons b t ih =>
      intro a h
      cases t with
      | nil =>
          simp at h
          exact h ▸ List.mem_singleton_self b
      | cons c t2 =>
          rw [List.getLast?_cons_cons] at h
          exact List.mem_cons.mpr (Or.inr (ih h))

theorem eq_nil_of_getLast_eq_none {α : Type _} :
    ∀ {m : List α}, m.getLast? = none → m = [] := by
  intro m h
  cases m with
  | nil => rfl
  | cons a t => simp [List.getLast?_eq_getLast] at h

theorem rel_getLast_of_pairwise {α : Type _} {r : α → α → Prop} :
    ∀ {m : List α} {a : α}, m.Pairwise r → m.getLast? = some a →
      ∀ x ∈ m, x = a ∨ r x a := by
  intro m
  induction m with
  | nil => intro a _ h; simp at h
  | cons b t ih =>
      intro a hp h x hx
      cases t with
      | nil =>
          simp at h
          rcases List.mem_singleton.mp hx with rfl
          exact Or.inl h
      | cons c t2 =>
          rw [List.getLast?_cons_cons] at h
          rcases List.mem_cons.mp hx with rfl | hx2
          · exact Or.inr ((List.pairwise_cons.mp hp).1 a
              (mem_of_getLast_eq_some h))
          · exact ih (List.pairwise_cons.mp hp).2 h x hx2

theorem mem_sessions_in_chat {st : StoreState} {chat : Chat} {s : Session} :
    s ∈ st.sessions_in_chat chat ↔
      (∃ e ∈ st.entries, e.session = s) ∧ s.message.chat.id = chat.id := by
  simp only [StoreState.sessions_in_chat, List.mem_map, List.mem_filter,
    beq_iff_eq]
  constructor
  · rintro ⟨e, ⟨he, hid⟩, rfl⟩
    exact ⟨⟨e, he, rfl⟩, hid⟩
  · rintro ⟨⟨e, he, rfl⟩, hid⟩
    exact ⟨e, ⟨he, hid⟩, rfl⟩

/-- Characterization of `newest_session_in_chat`: `none` means no waiting
session lives in the chat, and `some ck` names a waiting session of the
chat with the largest message id. -/
theorem newest_session_spec (st : StoreState) (chat : Chat) :
    (st.newest_session_in_chat chat = none →
      ∀ s ∈ st.sessions_in_chat chat, ¬s.is_waiting = true) ∧
    ∀ ck, st.newest_session_in_chat chat = some ck →
      ∃ a, a ∈ st.sessions_in_chat chat ∧ a.is_waiting = true ∧
        ck = msgKey a ∧
        ∀ s ∈ st.sessions_in_chat chat, s.is_waiting = true →
          s.message.id ≤ a.message.id := by
  have hperm : ((st.sessions_in_chat chat).insertionSort byMessageId).Perm
      (st.sessions_in_chat chat) := List.perm_insertionSort _ _
  have hsorted : List.Sorted byMessageId
      ((st.sessions_in_chat chat).insertionSort byMessageId) :=
    List.sorted_insertionSort _ _
  have hpairf : (((st.sessions_in_chat chat).insertionSort byMessageId).filter
      (fun s => s.is_waiting)).Pairwise byMessageId :=
    List.Pairwise.sublist (List.filter_sublist _) hsorted
  constructor
  · intro hnone s hs hw
    simp only [StoreState.newest_session_in_chat] at hnone
    cases hg : (((st.sessions_in_chat chat).insertionSort byMessageId).filter
        (fun s => s.is_waiting)).getLast? with
    | some a => rw [hg] at hnone; exact Option.noConfusion hnone
    | none =>
        have hnil := eq_nil_of_getLast_eq_none hg
        have hmem : s ∈ ((st.sessions_in_chat chat).insertionSort
            byMessageId).filter (fun s => s.is_waiting) :=
          List.mem_filter.mpr ⟨hperm.mem_iff.mpr hs, hw⟩
        rw [hnil] at hmem
        exact absurd hmem (List.not_mem_nil s)
  · intro ck hsome
    simp only [StoreState.newest_session_in_chat] at hsome
    cases hg : (((st.sessions_in_chat chat).insertionSort byMessageId).filter
        (fun s => s.is_waiting)).getLast? with
    | none => rw [hg] at hsome; exact Option.noConfusion hsome
    | some a =>
        rw [hg] at hsome
        have hamem := List.mem_filter.mp (mem_of_getLast_eq_some hg)
        refine ⟨a, hperm.mem_iff.mp hamem.1, hamem.2, ?_, ?_⟩
        · exact (Option.some.inj hsome).symm
        · intro s hs hw
          have hmem : s ∈ ((st.sessions_in_chat chat).insertionSort
              byMessageId).filter (fun s => s.is_waiting) :=
            List.mem_filter.mpr ⟨hperm.mem_iff.mpr hs, hw⟩
          rcases rel_getLast_of_pairwise hpairf hg s hmem with rfl | hle
          · exact Nat.le_refl _
          · exact hle

/-- **C6**.  `join_latest_session` targets the waiting session of the chat
with the numerically highest anchor-message id: when no registered session
of the chat is waiting it returns the no-eligible-session hint unchanged,
and otherwise there is a registered waiting session of the chat with
maximal message id such that joining appends the user to exactly that
session's participants — unless the user already belongs to it, in which
case the call errors without mutating anything. -/
theorem c6_join_selects_newest {st : StoreState} (hre : Reachable st)
    (chat : Chat) (user : User) :
    ((∀ e ∈ st.entries, e.session.message.chat.id = chat.id →
        e.session.is_waiting = false) →
      (st.join_latest_session chat user).1 =
        Except.error ("This chat does not have any registered sessions yet.\n\n"
          ++ "Hint: Use /25 to create a new session.") ∧
      (st.join_latest_session chat user).2 = st) ∧
    (∀ e0 ∈ st.entries, e0.session.message.chat.id = chat.id →
      e0.session.is_waiting = true →
      ∃ e ∈ st.entries, e.session.message.chat.id = chat.id ∧
        e.session.is_waiting = true ∧
        (∀ e2 ∈ st.entries, e2.session.message.chat.id = chat.id →
          e2.session.is_waiting = true →
          e2.session.message.id ≤ e.session.message.id) ∧
        (e.session.participants.contains user = true →
          (st.join_latest_session chat user).1 =
            Except.error ("@" ++ (user.username.getD user.firstName) ++
              " is already a participant") ∧
          (st.join_latest_session chat user).2 = st) ∧
        (e.session.participants.contains user = false →
          (st.join_latest_session chat user).1 = Except.ok e.session.message ∧
          (st.join_latest_session chat user).2 =
            { st with entries := (modifyE st.entries e.key
                (fun s => { s with
                  participants := s.participants ++ [user] })) })) := by
  have hwf := reachable_wf hre
  constructor
  · intro hall
    cases hn : st.newest_session_in_chat chat with
    | some ck =>
        exfalso
        obtain ⟨a, hamem, hawait, -, -⟩ := (newest_session_spec st chat).2 ck hn
        obtain ⟨⟨e, he, rfl⟩, hid⟩ := mem_sessions_in_chat.mp hamem
        rw [hall e he hid] at hawait
        exact Bool.false_ne_true hawait
    | none =>
        simp only [StoreState.join_latest_session, hn]
        exact ⟨trivial, trivial⟩
  · intro e0 he0 hid0 hw0
    cases hn : st.newest_session_in_chat chat with
    | none =>
        exfalso
        refine (newest_session_spec st chat).1 hn e0.session ?_ hw0
        exact mem_sessions_in_chat.mpr ⟨⟨e0, he0, rfl⟩, hid0⟩
    | some ck =>
        obtain ⟨a, hamem, hawait, hck, hmax⟩ :=
          (newest_session_spec st chat).2 ck hn
        obtain ⟨⟨e, he, heq⟩, hid⟩ := mem_sessions_in_chat.mp hamem
        have hstate : e.session.state = SessionState.PomodoroWaiting := by
          have := hawait
          rw [← heq] at this
          exact of_decide_eq_true this
        have hkey : e.key = msgKey a := by
          rw [← heq]
          exact (hwf.waitKey e he hstate).1
        have hlook : lookupE st.entries ck = some (a, e.dkey) := by
          rw [hck, ← hkey]
          rw [lookupE_of_mem_nodup hwf.keysNodup he, heq]
        refine ⟨e, he, by rw [heq]; exact hid, by rw [heq]; exact hawait,
          ?_, ?_, ?_⟩
        · intro e2 he2 hid2 hw2
          rw [heq]
          exact hmax e2.session
            (mem_sessions_in_chat.mpr ⟨⟨e2, he2, rfl⟩, hid2⟩) hw2
        · intro hcont
          rw [heq] at hcont
          simp only [StoreState.join_latest_session, hn, hlook]
          rw [if_pos hcont]
          exact ⟨rfl, rfl⟩
        · intro hcont
          rw [heq] at hcont
          simp only [StoreState.join_latest_session, hn, hlook]
          rw [if_neg (show ¬(a.participants.contains user = true) by
            rw [hcont]; exact Bool.false_ne_true)]
          rw [heq, hkey, ← hck]
          exact ⟨rfl, rfl⟩

/-- Concrete instance of the join-selection theorem on the store holding
one fresh group Pomodoro. -/
theorem c6_join_selects_newest_witness :
    ∃ e ∈ stPomG.entries, e.session.message.chat.id = chatG.id ∧
      e.session.is_waiting = true ∧
      (∀ e2 ∈ stPomG.entries, e2.session.message.chat.id = chatG.id →
        e2.session.is_waiting = true →
        e2.session.message.id ≤ e.session.message.id) ∧
      (e.session.participants.contains bob = true →
        (stPomG.join_latest_session chatG bob).1 =
          Except.error ("@" ++ (bob.username.getD bob.firstName) ++
            " is already a participant") ∧
        (stPomG.join_latest_session chatG bob).2 = stPomG) ∧
      (e.session.participants.contains bob = false →
        (stPomG.join_latest_session chatG bob).1 =
          Except.ok e.session.message ∧
        (stPomG.join_latest_session chatG bob).2 =
          { stPomG with entries := (modifyE stPomG.entries e.key
              (fun s => { s with
                participants := s.participants ++ [bob] })) }) :=
  (c6_join_selects_newest
      (show Reachable stPomG from
        Reachable.step 100 (Op.newPomodoro msgG1 alice none none 3)
          Reachable.init (by decide))
      chatG bob).2
    ⟨CacheKey.new 10 1, sessPomG, 0⟩ (by decide) (by decide) (by decide)

/-- **C7** failing input.  In the reachable store `stBugP`, alice is a
participant of the one session of chat 11, yet leaving fails with a
does-not-exist error and mutates nothing: `start_session_now` re-inserted
the running session under the key of its *original* message while the
start notification replaced `session.message`, so the cache key `leave`
derives from the session's current message misses the map — the user is
not removed from the first (indeed any) session containing them. -/
theorem c7_leave_code_bug :
    Reachable stBugP ∧
    (∃ e ∈ stBugP.entries, e.session.message.chat.id = chatP.id ∧
      e.session.participants.contains alice = true) ∧
    (stBugP.leave_latest_session chatP alice).1 =
      Except.error ("A Pomodoro in chat 11 with id 2 does not exist!") ∧
    (stBugP.leave_latest_session chatP alice).2.1 = stBugP ∧
    (stBugP.leave_latest_session chatP alice).2.2 = [] := by
  refine ⟨?_, by decide, by rfl, by decide, by rfl⟩
  exact Reachable.step 150 (Op.startNow alice msgP1 (some msgP2))
    (Reachable.step 100 (Op.newPomodoro msgP1 alice none none 3)
      Reachable.init (by decide)) (by decide)

/-- **C9** counterexample.  The end-of-Pomodoro transition does *not*
preserve the session's key: the running session of `stRunP` lives under
cache key (11, 1), but after its deadline fires with the end notification
delivered as message 99, the store holds it under (11, 99) and key
(11, 1) is gone — `end_pomodoro` re-registers under the key of the *new*
message stored by `notify_participants_on_end`. -/
theorem c9_rekey_counterexample :
    Reachable stBreakP ∧
    lookupE stRunP.entries (CacheKey.new 11 1) = some (sessRunP, 1) ∧
    lookupE stBreakP.entries (CacheKey.new 11 1) = none ∧
    lookupE stBreakP.entries (CacheKey.new 11 99) =
      some (⟨SessionState.BreakRunning, msgP99, alice, [alice], 100, 100,
        300⟩, 2) := by
  refine ⟨?_, by decide, by decide, by decide⟩
  exact Reachable.step 1800 (Op.tick 1 (some msgP99))
    (Reachable.step 300 (Op.tick 0 none)
      (Reachable.step 100 (Op.newPomodoro msgP1 alice none none 3)
        Reachable.init (by decide)) (by decide)) (by decide)

/-- **C9** (corrected).  When the queue item `qk` fires and its paired
session is in `PomodoroRunning`, the scheduler converts the session to a
break — state `BreakRunning`, duration the 5-minute break length, creator
and participants untouched — and re-registers it with queue deadline
`now + 300`, but under the key of the session's *current* message after
the end notification (so the original key is preserved exactly when the
notification did not replace the anchor message, e.g. `notif = none`). -/
theorem c9_break_transition_amended {st : StoreState} (qk now : Nat)
    (notif : Option Message) {it : QueueItem} {s : Session} {dk : Nat}
    (hfind : st.expirations.items.find? (fun x => x.qkey == qk) = some it)
    (hlook : lookupE st.entries it.value = some (s, dk))
    (hrun : s.state = SessionState.PomodoroRunning) :
    (st.tick qk now notif).entries =
      insertE (st.entries.filter (fun e => e.key != it.value))
        (msgKey (s.notify_participants_on_end notif))
        ((s.notify_participants_on_end notif).convert_to_break)
        st.expirations.next ∧
    ((s.notify_participants_on_end notif).convert_to_break).state =
      SessionState.BreakRunning ∧
    ((s.notify_participants_on_end notif).convert_to_break).duration =
      60 * 5 ∧
    ((s.notify_participants_on_end notif).convert_to_break).creator =
      s.creator ∧
    ((s.notify_participants_on_end notif).convert_to_break).participants =
      s.participants ∧
    (st.tick qk now notif).expirations.items =
      (st.expirations.items.filter (fun x => x.qkey != qk)) ++
        [⟨st.expirations.next, msgKey (s.notify_participants_on_end notif),
          now + 60 * 5⟩] ∧
    (notif = none →
      msgKey (s.notify_participants_on_end notif) = msgKey s) := by
  have hwF : s.is_waiting = false := by
    simp [Session.is_waiting, hrun]
  have hrT : s.is_running = true := by
    simp [Session.is_running, hrun]
  simp only [StoreState.tick, hfind, removeE, DelayQueue.removeKey]
  rw [hlook]
  simp only [hwF, Bool.false_eq_true, if_false, hrT, if_true]
  simp only [StoreState.start_break, DelayQueue.insert, DelayQueue.insertAt]
  refine ⟨rfl, rfl, rfl, by cases notif <;> rfl, by cases notif <;> rfl,
    rfl, ?_⟩
  intro h
  subst h
  rfl

/-- Concrete instance of the corrected break transition: firing the
running private Pomodoro's deadline with the end notification delivered
as message 99. -/
theorem c9_break_transition_amended_witness :
    (stRunP.tick 1 1800 (some msgP99)).entries =
      insertE (stRunP.entries.filter
          (fun e => e.key != CacheKey.new 11 1))
        (msgKey (sessRunP.notify_participants_on_end (some msgP99)))
        ((sessRunP.notify_participants_on_end (some msgP99)).convert_to_break)
        stRunP.expirations.next ∧
    (stRunP.tick 1 1800 (some msgP99)).expirations.items =
      (stRunP.expirations.items.filter (fun x => x.qkey != 1)) ++
        [⟨stRunP.expirations.next,
          msgKey (sessRunP.notify_participants_on_end (some msgP99)),
          1800 + 60 * 5⟩] :=
  have h := c9_break_transition_amended 1 1800 (some msgP99)
    (show List.find? (fun x => x.qkey == 1) stRunP.expirations.items =
      some ⟨1, CacheKey.new 11 1, 1800⟩ from by decide)
    (show lookupE stRunP.entries (CacheKey.new 11 1) =
      some (sessRunP, 1) from by decide)
    (show sessRunP.state = SessionState.PomodoroRunning from by decide)
  ⟨h.1, h.2.2.2.2.2.1⟩

end Chaostomato
